import Mathlib

/-!
Verification of the `whatismyschema` column-type classifier.

The Python source (`whatismyschema.py`) is shallowly embedded here:

* `NumberDiscover.discover` is modelled by `NumberDiscover.discover`,
  a pure function `List String → Except Unit String`.  `Except.error ()`
  models a raised `ValueError` (the only exception the loop body can
  raise, from `int(pre_dot_string)`), and `Except.ok t` models a normal
  return of the type-name string `t`.
* Python's `float(x)` acceptance test (the ASCII fragment: optional
  surrounding whitespace, optional sign, digit runs with grouping
  underscores, optional dot, optional exponent marker, and the
  `inf`/`infinity`/`nan` literals, case-insensitively) is modelled by
  `is_number`; `math.isnan(float(v))` by `isNanLit`.
* `format(Decimal(v), 'f')` — the exact fixed-point expansion of a
  scientific-notation numeric string — is modelled by `sciExpand`,
  following the digit placement of the `decimal` module's
  `__format__` (coefficient digits with the decimal point placed at
  `exponent + len(coefficient)`).
* Python's arbitrary-precision `int(s)` is `pyIntParse` (`none` models
  `ValueError`), and `str(i)` for an `int` is `pyIntStr`.
* `SchemaDiscovery.__to_sql` is modelled by `SchemaDiscovery.to_sql`;
  the raised `KeyError` for an empty mapping is `Except.error ()`.
-/

namespace NumberDiscover

/-- ASCII decimal digit test. -/
def isPyDigit (c : Char) : Bool := '0' ≤ c && c ≤ '9'

/-- The whitespace characters stripped by Python's numeric parsers
(ASCII fragment of `Py_UNICODE_ISSPACE`). -/
def isPySpace (c : Char) : Bool :=
  c = ' ' || c = '\t' || c = '\n' || c = '\r' || c = '\x0b' || c = '\x0c'

/-- Strip leading and trailing whitespace, as Python's `float`/`int`
constructors do before parsing. -/
def pyStrip (l : List Char) : List Char :=
  ((l.dropWhile isPySpace).reverse.dropWhile isPySpace).reverse

/-- Drop one optional leading sign character. -/
def dropSign (l : List Char) : List Char :=
  match l with
  | [] => []
  | c :: r => if c = '+' || c = '-' then r else c :: r

/-- Split off one optional leading sign; the Bool is `true` for a
leading minus. -/
def signOf (l : List Char) : Bool × List Char :=
  match l with
  | [] => (false, [])
  | c :: r => if c = '-' then (true, r) else if c = '+' then (false, r) else (false, l)

/-- Python `digitpart`: a nonempty digit run in which `_` may occur
between two digits (PEP 515 grouping). -/
def isDigitpart : List Char → Bool
  | [] => false
  | [c] => isPyDigit c
  | c :: c2 :: r =>
    isPyDigit c && (if c2 = '_' then isDigitpart r else isDigitpart (c2 :: r))

/-- Split a list at the first character satisfying `p`: returns the
part before it and, if found, the part after it. -/
def splitOnceP (p : Char → Bool) : List Char → List Char × Option (List Char)
  | [] => ([], none)
  | a :: r =>
    if p a then ([], some r)
    else
      let q := splitOnceP p r
      (a :: q.1, q.2)

/-- Python float-literal mantissa: `digitpart`, `digitpart '.'`,
`'.' digitpart` or `digitpart '.' digitpart`. -/
def isMantissa (l : List Char) : Bool :=
  match splitOnceP (fun c => c = '.') l with
  | (_, none) => isDigitpart l
  | (pre, some post) =>
    (isDigitpart pre && (post.isEmpty || isDigitpart post)) ||
    (pre.isEmpty && isDigitpart post)

/-- An exponent marker character. -/
def isExpChar (c : Char) : Bool := c = 'e' || c = 'E'

/-- A `digitpart` with one optional leading sign. -/
def isSignedDigitpart (l : List Char) : Bool := isDigitpart (dropSign l)

/-- The unsigned body of a Python float literal: a mantissa with an
optional exponent clause. -/
def isFloatMagnitude (l : List Char) : Bool :=
  match splitOnceP isExpChar l with
  | (_, none) => isMantissa l
  | (m, some ex) => isMantissa m && isSignedDigitpart ex

/-- Case-insensitive comparison against a fixed word. -/
def lowerEq (l : List Char) (w : List Char) : Bool := l.map Char.toLower == w

/-- The stripped, sign-stripped body of a candidate float literal. -/
def floatBody (v : String) : List Char := dropSign (pyStrip v.data)

/-- Model of the source's `is_number`: does `float(v)` succeed?  This
accepts numeric literals and the `inf`/`infinity`/`nan` words. -/
def is_number (v : String) : Bool :=
  let b := floatBody v
  isFloatMagnitude b || lowerEq b ("inf".data) || lowerEq b ("infinity".data) ||
    lowerEq b ("nan".data)

/-- Model of `math.isnan(float(v))`: `float(v)` yields a NaN exactly
when the (sign-stripped, whitespace-stripped) body is the word `nan`,
case-insensitively. -/
def isNanLit (v : String) : Bool := lowerEq (floatBody v) ("nan".data)

/-- Numeric value of one ASCII digit character. -/
def digitVal (c : Char) : Nat := c.toNat - '0'.toNat

/-- Value of a big-endian run of ASCII digit characters. -/
def digitsVal (l : List Char) : Nat := l.foldl (fun a c => 10 * a + digitVal c) 0

/-- Model of Python's arbitrary-precision `int(s)` on an ASCII string:
optional surrounding whitespace, optional sign, then a `digitpart`
(grouping underscores allowed).  `none` models a raised `ValueError`. -/
def pyIntParse (s : String) : Option Int :=
  let t := pyStrip s.data
  let sg := signOf t
  if isDigitpart sg.2 then
    let n : Nat := digitsVal (sg.2.filter (fun c => c ≠ '_'))
    some (if sg.1 then -(n : Int) else (n : Int))
  else none

/-- Model of Python's `str` on an `int`: the canonical decimal digits,
with a leading minus for negative values. -/
def pyIntStr (i : Int) : List Char :=
  if i < 0 then '-' :: Nat.toDigits 10 i.natAbs else Nat.toDigits 10 i.natAbs

/-- Remove trailing characters satisfying `p` (Python `str.rstrip`). -/
def rstripP (p : Char → Bool) (l : List Char) : List Char :=
  (l.reverse.dropWhile p).reverse

/-- Fixed-point rendering of `± coeff · 10 ^ dexp`, following the digit
placement of `format(Decimal(...), 'f')`: the coefficient digits with
the decimal point placed `dexp + (number of coefficient digits)` places
from the left, padded with zeros as needed.  A zero coefficient with a
positive exponent is first rescaled to exponent 0, as the `decimal`
module does for fixed-point formatting. -/
def fixedRender (neg : Bool) (coeff : Nat) (dexp0 : Int) : List Char :=
  let dexp : Int := if coeff = 0 ∧ 0 < dexp0 then 0 else dexp0
  let D := Nat.toDigits 10 coeff
  let leftdigits : Int := dexp + D.length
  let body : List Char :=
    if leftdigits < 1 then
      '0' :: '.' :: (List.replicate (-leftdigits).toNat '0' ++ D)
    else if (D.length : Int) ≤ leftdigits then
      D ++ List.replicate (leftdigits - (D.length : Int)).toNat '0'
    else
      D.take leftdigits.toNat ++ '.' :: D.drop leftdigits.toNat
  (if neg then ['-'] else []) ++ body

/-- Model of `format(Decimal(v), 'f')` for a numeric string carrying an
exponent clause: the coefficient is the integer and fractional digits
(grouping underscores removed, leading zeros not significant), and the
decimal exponent is the literal exponent minus the number of
fractional digits.  For a string with no exponent marker (a case the
source never reaches, since it only expands when `'e' in v`) the
string is returned unchanged. -/
def sciExpand (v : String) : String :=
  let t := pyStrip v.data
  let sg := signOf t
  match splitOnceP isExpChar sg.2 with
  | (_, none) => v
  | (m, some ex) =>
    let esg := signOf ex
    let sp := splitOnceP (fun c => c = '.') m
    let fpart := sp.2.getD []
    let iu := sp.1.filter (fun c => c ≠ '_')
    let fu := fpart.filter (fun c => c ≠ '_')
    let eu := esg.2.filter (fun c => c ≠ '_')
    let coeff := digitsVal (iu ++ fu)
    let eVal : Int := if esg.1 then -(digitsVal eu : Int) else (digitsVal eu : Int)
    ⟨fixedRender sg.1 coeff (eVal - (fu.length : Int))⟩

/-- The local accumulator of `NumberDiscover.discover`, one field per
local variable of the source. -/
structure DiscState where
  pre_dot_max_length : Nat
  post_dot_max_length : Nat
  number_of_nulls : Nat
  max_pre : Int
  min_pre : Int
deriving Repr, DecidableEq

/-- The accumulator at the top of the loop. -/
def initState : DiscState := ⟨0, 0, 0, 0, 0⟩

/-- The `pre_dot_string` computed for one value: expand scientific
notation when the value contains a lowercase `e`, split at the first
dot, and replace an empty integer-part token by `"0"`. -/
def preTok (v : String) : List Char :=
  let v1 := if v.data.contains 'e' then (sciExpand v).data else v.data
  let p := (splitOnceP (fun c => c = '.') v1).1
  if p.isEmpty then ['0'] else p

/-- The fractional-part token (the part after the first dot, if any)
for one value, after the same scientific-notation expansion. -/
def postTok (v : String) : Option (List Char) :=
  let v1 := if v.data.contains 'e' then (sciExpand v).data else v.data
  (splitOnceP (fun c => c = '.') v1).2

/-- The state update performed by the loop body for a numeric,
non-null, non-NaN value whose integer-part token parsed to `pre`. -/
def numUpd (st : DiscState) (pre : Int) (post : Option (List Char)) : DiscState :=
  let pre_s := dropSign (pyIntStr pre)
  let pre_number_of_digits := pre_s.length
  let st1 : DiscState :=
    { st with
      max_pre := if st.max_pre < pre then pre else st.max_pre,
      min_pre := if st.min_pre > pre then pre else st.min_pre,
      pre_dot_max_length :=
        if pre_number_of_digits > st.pre_dot_max_length then pre_number_of_digits
        else st.pre_dot_max_length }
  match post with
  | none => st1
  | some postRaw =>
    if postRaw.length > 0 then
      let post_dot_string := rstripP (fun c => c = '0') (rstripP (fun c => c = ' ') postRaw)
      { st1 with
        post_dot_max_length :=
          if post_dot_string.length > st1.post_dot_max_length then post_dot_string.length
          else st1.post_dot_max_length }
    else st1

/-- The value loop of `NumberDiscover.discover`.  `Sum.inr ()` models
the early `return "string"`, `Except.error ()` a `ValueError` raised
by `int(pre_dot_string)`. -/
def go (st : DiscState) : List String → Except Unit (DiscState ⊕ Unit)
  | [] => Except.ok (Sum.inl st)
  | v :: rest =>
    if v.length = 0 then
      go { st with number_of_nulls := st.number_of_nulls + 1 } rest
    else if is_number v = false then Except.ok (Sum.inr ())
    else if isNanLit v then
      go { st with number_of_nulls := st.number_of_nulls + 1 } rest
    else
      match pyIntParse ⟨preTok v⟩ with
      | none => Except.error ()
      | some pre => go (numUpd st pre (postTok v)) rest

/-- The post-scan decision of the source: all-null gives `tinyint`,
integer columns classify by range, otherwise a decimal type. -/
def finalize (len : Nat) (st : DiscState) : String :=
  if st.number_of_nulls = len then "tinyint"
  else if st.post_dot_max_length = 0 then
    if -128 < st.min_pre ∧ st.max_pre ≤ 127 then "tinyint"
    else if -32768 < st.min_pre ∧ st.max_pre ≤ 32767 then "smallint"
    else if -2147483648 < st.min_pre ∧ st.max_pre ≤ 2147483647 then "int"
    else "bigint"
  else
    "decimal(" ++ Nat.repr (st.pre_dot_max_length + st.post_dot_max_length) ++ ", " ++
      Nat.repr st.post_dot_max_length ++ ")"

/-- Model of `NumberDiscover.discover`. -/
def discover (values : List String) : Except Unit String :=
  match go initState values with
  | Except.error e => Except.error e
  | Except.ok (Sum.inr _) => Except.ok "string"
  | Except.ok (Sum.inl st) => Except.ok (finalize values.length st)

end NumberDiscover

namespace SchemaDiscovery

/-- One column definition line of the generated DDL. -/
def colDef (ct : String × String) : String := "\n\t\"" ++ ct.1 ++ "\" " ++ ct.2

/-- Model of `SchemaDiscovery.__to_sql` on an ordered column-name →
type mapping; `Except.error ()` models the raised `KeyError`. -/
def to_sql (table_name : String) (types : List (String × String)) : Except Unit String :=
  if types.length < 1 then Except.error ()
  else
    let sql0 := "CREATE TABLE \"" ++ table_name ++ "\" ("
    let sql1 := types.foldl (fun acc ct => acc ++ colDef ct ++ ",") sql0
    let sql2 : String := ⟨sql1.data.dropLast⟩
    Except.ok (sql2 ++ "\n);")

/-- Comma-separated join, the shape of the column-definition block the
source produces (each definition followed by a comma, last comma
removed). -/
def commaJoin : List String → String
  | [] => ""
  | [p] => p
  | p :: q :: r => p ++ "," ++ commaJoin (q :: r)

end SchemaDiscovery

/-- A structured plain decimal numeral (or a null cell), the
specification-side view of one column value: an optional minus sign,
integer-part digits, an optional dot and fractional digits.  `render`
turns it into the cell string the classifier reads. -/
inductive PyVal where
  | null : PyVal
  | num (neg : Bool) (ds : List Nat) (dot : Bool) (fs : List Nat) : PyVal
deriving Repr, DecidableEq

namespace PyVal

/-- Well-formedness of a structured value: digits are decimal, a
fractional part requires a dot, and a numeral with no integer digits
must be an unsigned dotted numeral with a nonempty fractional part
(the only empty-integer-token shape whose integer token the source can
parse). -/
def valid : PyVal → Bool
  | null => true
  | num neg ds dot fs =>
    ds.all (fun d => d < 10) && fs.all (fun d => d < 10) &&
    (dot || fs.isEmpty) &&
    (!ds.isEmpty || (!neg && dot && !fs.isEmpty))

/-- The cell string of a structured value. -/
def render : PyVal → String
  | null => ""
  | num neg ds dot fs =>
    ⟨(if neg then ['-'] else []) ++ ds.map Nat.digitChar ++
      (if dot then '.' :: fs.map Nat.digitChar else [])⟩

/-- Whether the value is a null cell. -/
def isNull : PyVal → Bool
  | null => true
  | num _ _ _ _ => false

/-- Whether the fractional-part token is absent or empty (a plain
integer or a numeral ending in a bare dot). -/
def fracTokenEmpty : PyVal → Bool
  | null => true
  | num _ _ _ fs => fs.isEmpty

/-- Big-endian value of a digit list. -/
def valOfDigits (l : List Nat) : Nat := l.foldl (fun a d => 10 * a + d) 0

/-- The signed arbitrary-precision value of the integer-part token
(what `int(pre_dot_string)` yields). -/
def intVal : PyVal → Int
  | null => 0
  | num neg ds _ _ => if neg then -(valOfDigits ds : Int) else (valOfDigits ds : Int)

/-- The digit count of the canonical decimal rendering of the
integer-part value: the sign is excluded and leading zeros are not
counted; an empty integer token counts as `"0"`, one digit. -/
def intDigits : PyVal → Nat
  | null => 0
  | num _ ds _ _ => (Nat.toDigits 10 (valOfDigits ds)).length

/-- The fractional digit count after stripping trailing zero digits. -/
def fracLen : PyVal → Nat
  | null => 0
  | num _ _ _ fs => (fs.reverse.dropWhile (fun d => d = 0)).length

/-- The per-value state update of the classifier loop, stated on the
structured view. -/
def updState (st : NumberDiscover.DiscState) : PyVal → NumberDiscover.DiscState
  | null => { st with number_of_nulls := st.number_of_nulls + 1 }
  | num neg ds dot fs =>
    let pre := intVal (num neg ds dot fs)
    let nd := intDigits (num neg ds dot fs)
    let fl := fracLen (num neg ds dot fs)
    { st with
      max_pre := if st.max_pre < pre then pre else st.max_pre,
      min_pre := if st.min_pre > pre then pre else st.min_pre,
      pre_dot_max_length := if nd > st.pre_dot_max_length then nd else st.pre_dot_max_length,
      post_dot_max_length :=
        if fl > st.post_dot_max_length then fl else st.post_dot_max_length }

end PyVal

/-- Number of null cells in a structured column. -/
def countNulls (l : List PyVal) : Nat := l.countP (fun f => f.isNull)

/-- Maximum fractional digit count (after trailing-zero stripping)
over a structured column, 0 when there is none. -/
def maxFracLen (l : List PyVal) : Nat := l.foldl (fun a f => max a f.fracLen) 0

/-- Maximum integer-part digit count over the non-null cells of a
structured column, 0 when there is none. -/
def maxIntDigits (l : List PyVal) : Nat := l.foldl (fun a f => max a f.intDigits) 0

/-- The running maximum of the integer-part values over the non-null
cells, seeded with 0 exactly as the source seeds `max_pre`. -/
def maxPreVal (l : List PyVal) : Int :=
  l.foldl (fun a f => if f.isNull then a else max a f.intVal) 0

/-- The running minimum of the integer-part values over the non-null
cells, seeded with 0 exactly as the source seeds `min_pre`. -/
def minPreVal (l : List PyVal) : Int :=
  l.foldl (fun a f => if f.isNull then a else min a f.intVal) 0

/-- The integer-range classification cascade exactly as the claim
states it: smallest type first, strict lower bound, inclusive upper
bound. -/
def intRangeName (mn mx : Int) : String :=
  if -128 < mn ∧ mx ≤ 127 then "tinyint"
  else if -32768 < mn ∧ mx ≤ 32767 then "smallint"
  else if -2147483648 < mn ∧ mx ≤ 2147483647 then "int"
  else "bigint"

/-- A structured scientific-notation numeral
`[-] ds [. fs] e [-] es`, rendered with a lowercase exponent marker. -/
def renderSci (neg : Bool) (ds : List Nat) (dot : Bool) (fs : List Nat)
    (eneg : Bool) (es : List Nat) : String :=
  ⟨(if neg then ['-'] else []) ++ ds.map Nat.digitChar ++
    (if dot then '.' :: fs.map Nat.digitChar else []) ++
    'e' :: ((if eneg then ['-'] else []) ++ es.map Nat.digitChar)⟩

/-- Well-formedness of a structured scientific numeral: decimal
digits, a nonempty exponent digit run, a fractional part only after a
dot, and at least one mantissa digit. -/
def validSci (ds : List Nat) (dot : Bool) (fs : List Nat) (es : List Nat) : Bool :=
  ds.all (fun d => d < 10) && fs.all (fun d => d < 10) && es.all (fun d => d < 10) &&
  !es.isEmpty && (dot || fs.isEmpty) && (!ds.isEmpty || !fs.isEmpty)

/-- The exact rational value of a structured scientific numeral:
(sign) · (integer digits plus fractional digits over a power of ten)
· ten to the signed exponent. -/
def sciVal (neg : Bool) (ds : List Nat) (fs : List Nat) (eneg : Bool) (es : List Nat) : ℚ :=
  (if neg then (-1 : ℚ) else 1) *
    ((PyVal.valOfDigits ds : ℚ) + (PyVal.valOfDigits fs : ℚ) / 10 ^ fs.length) *
    (10 : ℚ) ^ (if eneg then -(PyVal.valOfDigits es : Int) else (PyVal.valOfDigits es : Int))

/-- The exact rational value of an unsigned fixed-point digit string
`digits [. digits]`. -/
def fixedMagChars (l : List Char) : ℚ :=
  match NumberDiscover.splitOnceP (fun c => c = '.') l with
  | (i, none) => (NumberDiscover.digitsVal i : ℚ)
  | (i, some fr) =>
    (NumberDiscover.digitsVal i : ℚ) + (NumberDiscover.digitsVal fr : ℚ) / 10 ^ fr.length

/-- The exact rational value denoted by a plain fixed-point character
string `[sign] digits [. digits]`. -/
def fixedValChars (l : List Char) : ℚ :=
  let sg := NumberDiscover.signOf l
  (if sg.1 then (-1 : ℚ) else 1) * fixedMagChars sg.2

/-- A value is safely processable by one loop iteration: it is null,
or not a number (early `String` return), or a NaN literal, or its
integer-part token parses — i.e. it cannot raise the `int()`
`ValueError`. -/
def procOk (v : String) : Bool :=
  v.length = 0 || !(NumberDiscover.is_number v) || NumberDiscover.isNanLit v ||
    (NumberDiscover.pyIntParse ⟨NumberDiscover.preTok v⟩).isSome

/-- A character that is the rendering of one decimal digit. -/
def IsDigitCh (c : Char) : Prop := ∃ d, d < 10 ∧ c = Nat.digitChar d

namespace NumberDiscover

theorem dropWhile_eq_self_of {p : Char → Bool} :
    ∀ {l : List Char}, (∀ c ∈ l, p c = false) → l.dropWhile p = l
  | [], _ => rfl
  | c :: r, h => by
    have hc := h c (List.mem_cons_self c r)
    simp [List.dropWhile_cons, hc]

theorem pyStrip_eq_self {l : List Char} (h : ∀ c ∈ l, isPySpace c = false) :
    pyStrip l = l := by
  unfold pyStrip
  rw [dropWhile_eq_self_of h, dropWhile_eq_self_of (by simpa using h), List.reverse_reverse]

theorem rstripP_eq_self {p : Char → Bool} {l : List Char} (h : ∀ c ∈ l, p c = false) :
    rstripP p l = l := by
  unfold rstripP
  rw [dropWhile_eq_self_of (by simpa using h), List.reverse_reverse]

theorem splitOnceP_eq_none {p : Char → Bool} :
    ∀ {l : List Char}, (∀ c ∈ l, p c = false) → splitOnceP p l = (l, none)
  | [], _ => rfl
  | c :: r, h => by
    have hc := h c (List.mem_cons_self c r)
    have hr := splitOnceP_eq_none (p := p) (l := r) (fun a ha => h a (List.mem_cons_of_mem c ha))
    simp [splitOnceP, hc, hr]

theorem splitOnceP_eq_some {p : Char → Bool} {x : Char} (hx : p x = true) :
    ∀ {l1 : List Char}, (∀ c ∈ l1, p c = false) →
      ∀ {l2 : List Char}, splitOnceP p (l1 ++ x :: l2) = (l1, some l2)
  | [], _, l2 => by simp [splitOnceP, hx]
  | c :: r, h, l2 => by
    have hc := h c (List.mem_cons_self c r)
    have hr := @splitOnceP_eq_some p x hx r
      (fun a ha => h a (List.mem_cons_of_mem c ha)) l2
    simp [splitOnceP, hc, hr]

theorem contains_eq_false {a : Char} {l : List Char} (h : a ∉ l) :
    l.contains a = false := by simpa using h

theorem digitChar_spec {d : Nat} (h : d < 10) :
    isPyDigit (Nat.digitChar d) = true ∧ isPySpace (Nat.digitChar d) = false ∧
    digitVal (Nat.digitChar d) = d ∧ ¬ Nat.digitChar d = '.' ∧ ¬ Nat.digitChar d = 'e' ∧
    ¬ Nat.digitChar d = 'E' ∧ ¬ Nat.digitChar d = '_' ∧ ¬ Nat.digitChar d = '+' ∧
    ¬ Nat.digitChar d = '-' ∧ ¬ Char.toLower (Nat.digitChar d) = 'n' := by
  interval_cases d <;> exact ⟨rfl, rfl, rfl, by decide, by decide, by decide, by decide,
    by decide, by decide, by decide⟩

theorem isDigitCh_spec {c : Char} (h : IsDigitCh c) :
    isPyDigit c = true ∧ isPySpace c = false ∧
    ¬ c = '.' ∧ ¬ c = 'e' ∧ ¬ c = 'E' ∧ ¬ c = '_' ∧ ¬ c = '+' ∧ ¬ c = '-' ∧
    ¬ Char.toLower c = 'n' := by
  obtain ⟨d, hd, rfl⟩ := h
  obtain ⟨h1, h2, _, h4, h5, h6, h7, h8, h9, h10⟩ := digitChar_spec hd
  exact ⟨h1, h2, h4, h5, h6, h7, h8, h9, h10⟩

theorem mem_map_digitChar {ds : List Nat} (hds : ∀ d ∈ ds, d < 10) :
    ∀ c ∈ ds.map Nat.digitChar, IsDigitCh c := by
  intro c hc
  obtain ⟨d, hd, rfl⟩ := List.mem_map.mp hc
  exact ⟨d, hds d hd, rfl⟩

theorem digitsVal_foldl_shift :
    ∀ (l : List Char) (a : Nat),
      l.foldl (fun x c => 10 * x + digitVal c) a = a * 10 ^ l.length + digitsVal l
  | [], a => by simp [digitsVal]
  | c :: r, a => by
    have h1 := digitsVal_foldl_shift r (10 * a + digitVal c)
    have h2 := digitsVal_foldl_shift r (10 * 0 + digitVal c)
    simp only [digitsVal, List.foldl_cons] at *
    rw [h1, h2]
    simp only [List.length_cons, pow_succ]
    ring

theorem digitsVal_append (l1 l2 : List Char) :
    digitsVal (l1 ++ l2) = digitsVal l1 * 10 ^ l2.length + digitsVal l2 := by
  unfold digitsVal
  rw [List.foldl_append, digitsVal_foldl_shift]
  rfl

theorem digitsVal_replicate_zero (k : Nat) :
    digitsVal (List.replicate k '0') = 0 := by
  induction k with
  | zero => rfl
  | succ n ih =>
    have h := digitsVal_append [(' ' : Char)] []
    unfold digitsVal at *
    rw [List.replicate_succ, List.foldl_cons]
    simpa [digitVal] using ih

theorem valOfDigits_foldl_shift :
    ∀ (l : List Nat) (a : Nat),
      l.foldl (fun x d => 10 * x + d) a = a * 10 ^ l.length + PyVal.valOfDigits l
  | [], a => by simp [PyVal.valOfDigits]
  | d :: r, a => by
    have h1 := valOfDigits_foldl_shift r (10 * a + d)
    have h2 := valOfDigits_foldl_shift r (10 * 0 + d)
    simp only [PyVal.valOfDigits, List.foldl_cons] at *
    rw [h1, h2]
    simp only [List.length_cons, pow_succ]
    ring

theorem valOfDigits_append (l1 l2 : List Nat) :
    PyVal.valOfDigits (l1 ++ l2) =
      PyVal.valOfDigits l1 * 10 ^ l2.length + PyVal.valOfDigits l2 := by
  unfold PyVal.valOfDigits
  rw [List.foldl_append, valOfDigits_foldl_shift]
  rfl

theorem digitsVal_map_digitChar {ds : List Nat} (hds : ∀ d ∈ ds, d < 10) :
    digitsVal (ds.map Nat.digitChar) = PyVal.valOfDigits ds := by
  unfold digitsVal PyVal.valOfDigits
  rw [List.foldl_map]
  refine List.foldl_ext _ _ _ ?_
  intro a d hd
  rw [(digitChar_spec (hds d hd)).2.2.1]

theorem toDigitsCore_spec :
    ∀ (fuel n : Nat) (acc : List Char), n < fuel →
      ∃ ds, Nat.toDigitsCore 10 fuel n acc = ds ++ acc ∧ ds ≠ [] ∧
        (∀ c ∈ ds, IsDigitCh c) ∧ digitsVal ds = n := by
  intro fuel
  induction fuel with
  | zero => intro n acc h; exact absurd h (Nat.not_lt_zero n)
  | succ fuel ih =>
    intro n acc hn
    rw [Nat.toDigitsCore]
    have hmod : n % 10 < 10 := Nat.mod_lt n (by omega)
    by_cases h10 : n / 10 = 0
    · have hlt : n < 10 := by omega
      refine ⟨[Nat.digitChar (n % 10)], by simp [h10], by simp, ?_, ?_⟩
      · intro c hc
        rw [List.mem_singleton] at hc
        exact ⟨n % 10, hmod, hc⟩
      · simp only [digitsVal, List.foldl_cons, List.foldl_nil, Nat.mul_zero, Nat.zero_add]
        rw [(digitChar_spec hmod).2.2.1]
        omega
    · obtain ⟨ds, hds, hne, hdig, hval⟩ :=
        ih (n / 10) (Nat.digitChar (n % 10) :: acc) (by omega)
      refine ⟨ds ++ [Nat.digitChar (n % 10)], ?_, by simp, ?_, ?_⟩
      · simp only [h10, if_false]
        rw [hds, List.append_assoc]
        rfl
      · intro c hc
        rcases List.mem_append.mp hc with hc | hc
        · exact hdig c hc
        · rw [List.mem_singleton] at hc
          exact ⟨n % 10, hmod, hc⟩
      · rw [digitsVal_append, hval]
        simp only [digitsVal, List.foldl_cons, List.foldl_nil, Nat.mul_zero, Nat.zero_add,
          List.length_singleton]
        rw [(digitChar_spec hmod).2.2.1]
        omega

theorem toDigits_spec (n : Nat) :
    Nat.toDigits 10 n ≠ [] ∧ (∀ c ∈ Nat.toDigits 10 n, IsDigitCh c) ∧
      digitsVal (Nat.toDigits 10 n) = n := by
  obtain ⟨ds, hds, hne, hdig, hval⟩ := toDigitsCore_spec (n + 1) n [] (Nat.lt_succ_self n)
  unfold Nat.toDigits
  rw [hds, List.append_nil]
  exact ⟨hne, hdig, hval⟩

theorem isDigitpart_of_digits :
    ∀ {l : List Char}, l ≠ [] → (∀ c ∈ l, IsDigitCh c) → isDigitpart l = true := by
  intro l
  induction l with
  | nil => intro h; exact absurd rfl h
  | cons c r ih =>
    intro _ h
    have hc := (isDigitCh_spec (h c (List.mem_cons_self c r))).1
    match r with
    | [] => simpa [isDigitpart] using hc
    | c2 :: r2 =>
      have hc2 := (isDigitCh_spec (h c2 (by simp))).2.2.2.2.2.1
      have hr : isDigitpart (c2 :: r2) = true :=
        ih (by simp) (fun a ha => h a (List.mem_cons_of_mem c ha))
      simp [isDigitpart, hc, hc2, hr]

theorem filter_us_of_digits {l : List Char} (h : ∀ c ∈ l, IsDigitCh c) :
    l.filter (fun c => c ≠ '_') = l := by
  refine List.filter_eq_self.mpr ?_
  intro c hc
  simpa using (isDigitCh_spec (h c hc)).2.2.2.2.2.1

theorem signOf_minus (r : List Char) : signOf ('-' :: r) = (true, r) := by
  simp [signOf]

theorem signOf_not_sign {c : Char} (h1 : ¬ c = '-') (h2 : ¬ c = '+') (r : List Char) :
    signOf (c :: r) = (false, c :: r) := by
  simp [signOf, h1, h2]

theorem dropSign_minus (r : List Char) : dropSign ('-' :: r) = r := by
  simp [dropSign]

theorem dropSign_not_sign {c : Char} (h1 : ¬ c = '-') (h2 : ¬ c = '+') (r : List Char) :
    dropSign (c :: r) = c :: r := by
  simp [dropSign, h1, h2]

theorem dropSign_pyIntStr (i : Int) :
    dropSign (pyIntStr i) = Nat.toDigits 10 i.natAbs := by
  unfold pyIntStr
  obtain ⟨hne, hdig, -⟩ := toDigits_spec i.natAbs
  by_cases hneg : i < 0
  · rw [if_pos hneg, dropSign_minus]
  · rw [if_neg hneg]
    obtain ⟨c1, t1, hct⟩ := List.exists_cons_of_ne_nil hne
    have hc1 := hdig c1 (by rw [hct]; exact List.mem_cons_self c1 t1)
    obtain ⟨-, -, -, -, -, -, h7, h8, -⟩ := isDigitCh_spec hc1
    rw [hct, dropSign_not_sign h8 h7, ← hct]

theorem dropWhile_congr_on {α : Type} {p q : α → Bool} :
    ∀ {l : List α}, (∀ a ∈ l, p a = q a) → l.dropWhile p = l.dropWhile q
  | [], _ => rfl
  | a :: r, h => by
    have ha := h a (List.mem_cons_self a r)
    have hr := dropWhile_congr_on (l := r) (fun b hb => h b (List.mem_cons_of_mem a hb))
    simp only [List.dropWhile_cons, ha]
    split <;> simp [hr]

end NumberDiscover

namespace PyVal

open NumberDiscover

theorem data_render (neg : Bool) (ds : List Nat) (dot : Bool) (fs : List Nat) :
    (render (num neg ds dot fs)).data =
      (if neg then ['-'] else []) ++
        (ds.map Nat.digitChar ++ (if dot then '.' :: fs.map Nat.digitChar else [])) := by
  simp [render, List.append_assoc]

theorem valid_num_iff {neg : Bool} {ds : List Nat} {dot : Bool} {fs : List Nat}
    (h : valid (num neg ds dot fs) = true) :
    (∀ d ∈ ds, d < 10) ∧ (∀ d ∈ fs, d < 10) ∧ (dot = false → fs = []) ∧
      (ds = [] → neg = false ∧ dot = true ∧ fs ≠ []) := by
  simp only [valid, Bool.and_eq_true, List.all_eq_true, decide_eq_true_eq, Bool.or_eq_true,
    Bool.not_eq_true', List.isEmpty_iff] at h
  obtain ⟨⟨⟨h1, h2⟩, h3⟩, h4⟩ := h
  refine ⟨h1, h2, ?_, ?_⟩
  · intro hdot
    rcases h3 with h3 | h3
    · rw [hdot] at h3
      cases h3
    · exact h3
  · intro hds
    rcases h4 with h4 | h4
    · rw [hds] at h4
      simp at h4
    · refine ⟨h4.1.1, h4.1.2, ?_⟩
      intro hfs
      rw [hfs] at h4
      simp at h4

theorem body_chars {ds : List Nat} {dot : Bool} {fs : List Nat}
    (hds : ∀ d ∈ ds, d < 10) (hfs : ∀ d ∈ fs, d < 10) :
    ∀ c ∈ ds.map Nat.digitChar ++ (if dot then '.' :: fs.map Nat.digitChar else []),
      IsDigitCh c ∨ c = '.' := by
  intro c hc
  rcases List.mem_append.mp hc with hc | hc
  · exact Or.inl (mem_map_digitChar hds c hc)
  · cases dot with
    | false => simp at hc
    | true =>
      simp only [if_true] at hc
      rcases List.mem_cons.mp hc with hc | hc
      · exact Or.inr hc
      · exact Or.inl (mem_map_digitChar hfs c hc)

theorem body_pred {ds : List Nat} {dot : Bool} {fs : List Nat}
    (hds : ∀ d ∈ ds, d < 10) (hfs : ∀ d ∈ fs, d < 10) (q : Char → Bool)
    (h1 : ∀ c, IsDigitCh c → q c = false) (h2 : q '.' = false) :
    ∀ c ∈ ds.map Nat.digitChar ++ (if dot then '.' :: fs.map Nat.digitChar else []),
      q c = false := by
  intro c hc
  rcases body_chars hds hfs c hc with h | h
  · exact h1 c h
  · rw [h]; exact h2

theorem data_pred {neg : Bool} {ds : List Nat} {dot : Bool} {fs : List Nat}
    (hds : ∀ d ∈ ds, d < 10) (hfs : ∀ d ∈ fs, d < 10) (q : Char → Bool)
    (h1 : ∀ c, IsDigitCh c → q c = false) (h2 : q '.' = false) (h3 : q '-' = false) :
    ∀ c ∈ (render (num neg ds dot fs)).data, q c = false := by
  rw [data_render]
  intro c hc
  rcases List.mem_append.mp hc with hc | hc
  · cases neg
    · simp at hc
    · rw [if_pos rfl] at hc
      rw [List.mem_singleton] at hc
      rw [hc]; exact h3
  · exact body_pred hds hfs q h1 h2 c hc

theorem digitChar_eq_zero {d : Nat} (h : d < 10) :
    (decide (Nat.digitChar d = '0')) = (decide (d = 0)) := by
  interval_cases d <;> rfl

theorem numUpd_render (st : NumberDiscover.DiscState) (neg : Bool) (ds : List Nat)
    (dot : Bool) (fs : List Nat) (hfs : ∀ d ∈ fs, d < 10)
    (hdot : dot = false → fs = []) :
    NumberDiscover.numUpd st (intVal (num neg ds dot fs))
        (if dot then some (fs.map Nat.digitChar) else none) =
      updState st (num neg ds dot fs) := by
  have habs : (if neg = true then -(valOfDigits ds : Int) else (valOfDigits ds : Int)).natAbs =
      valOfDigits ds := by
    cases neg <;> simp
  cases st with
  | mk a1 a2 a3 a4 a5 =>
    cases dot with
    | false =>
      rw [hdot rfl]
      simp only [Bool.false_eq_true, if_false]
      simp only [NumberDiscover.numUpd, updState, NumberDiscover.dropSign_pyIntStr]
      simp [intVal, intDigits, fracLen, habs]
    | true =>
      cases fs with
      | nil =>
        simp only [if_pos trivial, List.map_nil]
        simp only [NumberDiscover.numUpd, updState, NumberDiscover.dropSign_pyIntStr]
        simp [intVal, intDigits, fracLen, habs]
      | cons f0 ftl =>
        simp only [if_pos trivial]
        have hnsp : ∀ c ∈ (f0 :: ftl).map Nat.digitChar, (fun c => decide (c = ' ')) c = false := by
          intro c hc
          obtain ⟨d, hd, rfl⟩ := List.mem_map.mp hc
          have hd10 := hfs d hd
          interval_cases d <;> rfl
        have hr1 : NumberDiscover.rstripP (fun c => c = ' ') ((f0 :: ftl).map Nat.digitChar) =
            (f0 :: ftl).map Nat.digitChar := NumberDiscover.rstripP_eq_self hnsp
        have hr2 : NumberDiscover.rstripP (fun c => c = '0') ((f0 :: ftl).map Nat.digitChar) =
            (((f0 :: ftl).reverse.dropWhile (fun d => d = 0)).map Nat.digitChar).reverse := by
          unfold NumberDiscover.rstripP
          rw [show ((f0 :: ftl).map Nat.digitChar).reverse =
            (f0 :: ftl).reverse.map Nat.digitChar from (List.map_reverse Nat.digitChar _).symm]
          rw [List.dropWhile_map]
          rw [NumberDiscover.dropWhile_congr_on (q := fun d => decide (d = 0)) ?_]
          · intro d hd
            exact digitChar_eq_zero (hfs d (List.mem_reverse.mp hd))
        have hlen2 : (NumberDiscover.rstripP (fun c => c = '0')
            (NumberDiscover.rstripP (fun c => c = ' ') ((f0 :: ftl).map Nat.digitChar))).length =
            fracLen (num neg ds true (f0 :: ftl)) := by
          rw [hr1, hr2]
          simp [fracLen]
        simp only [NumberDiscover.numUpd, updState, NumberDiscover.dropSign_pyIntStr, hlen2]
        simp [intVal, intDigits, fracLen, habs]

theorem go_step (st : NumberDiscover.DiscState) (f : PyVal) (hv : f.valid = true)
    (rest : List String) :
    NumberDiscover.go st (f.render :: rest) =
      NumberDiscover.go (updState st f) rest := by
  cases f with
  | null => rfl
  | num neg ds dot fs =>
    obtain ⟨hds, hfs, hdot, hemp⟩ := valid_num_iff hv
    have hdata := data_render neg ds dot fs
    have hbody_ne : ds.map Nat.digitChar ++
        (if dot then '.' :: fs.map Nat.digitChar else []) ≠ [] := by
      cases hds0 : ds with
      | nil =>
        obtain ⟨-, hdott, -⟩ := hemp hds0
        rw [hdott]
        simp
      | cons d dtl => simp
    obtain ⟨c0, bt, hb⟩ := List.exists_cons_of_ne_nil hbody_ne
    have hc0 : IsDigitCh c0 ∨ c0 = '.' :=
      body_chars hds hfs c0 (by rw [hb]; exact List.mem_cons_self c0 bt)
    have hc0ne : ¬ c0 = '-' ∧ ¬ c0 = '+' ∧ ¬ Char.toLower c0 = 'n' := by
      rcases hc0 with h | h
      · obtain ⟨-, -, -, -, -, -, h7, h8, h9⟩ := NumberDiscover.isDigitCh_spec h
        exact ⟨h8, h7, h9⟩
      · rw [h]
        exact ⟨by decide, by decide, by decide⟩
    have hsp : ∀ c ∈ (render (num neg ds dot fs)).data, NumberDiscover.isPySpace c = false :=
      data_pred hds hfs _ (fun c hc => (NumberDiscover.isDigitCh_spec hc).2.1) rfl rfl
    have hstrip : NumberDiscover.pyStrip (render (num neg ds dot fs)).data =
        (render (num neg ds dot fs)).data := NumberDiscover.pyStrip_eq_self hsp
    have hdrop : NumberDiscover.dropSign (render (num neg ds dot fs)).data =
        ds.map Nat.digitChar ++ (if dot then '.' :: fs.map Nat.digitChar else []) := by
      rw [hdata]
      cases neg
      · simp only [Bool.false_eq_true, if_false, List.nil_append]
        rw [hb, NumberDiscover.dropSign_not_sign hc0ne.1 hc0ne.2.1]
      · rw [if_pos rfl, List.singleton_append]
        exact NumberDiscover.dropSign_minus _
    have hnoexp : ∀ c ∈ ds.map Nat.digitChar ++
        (if dot then '.' :: fs.map Nat.digitChar else []), NumberDiscover.isExpChar c = false := by
      refine body_pred hds hfs _ ?_ rfl
      intro c hc
      obtain ⟨-, -, -, h4, h5, -⟩ := NumberDiscover.isDigitCh_spec hc
      simp [NumberDiscover.isExpChar, h4, h5]
    have hnodot_ds : ∀ c ∈ ds.map Nat.digitChar, (fun c => decide (c = '.')) c = false := by
      intro c hc
      simpa using (NumberDiscover.isDigitCh_spec (mem_map_digitChar hds c hc)).2.2.1
    have hmant : NumberDiscover.isMantissa (ds.map Nat.digitChar ++
        (if dot then '.' :: fs.map Nat.digitChar else [])) = true := by
      cases dot with
      | true =>
        rw [if_pos rfl]
        have hsplit := @NumberDiscover.splitOnceP_eq_some (fun c => decide (c = '.')) '.'
          (by simp) (ds.map Nat.digitChar) hnodot_ds (fs.map Nat.digitChar)
        unfold NumberDiscover.isMantissa
        rw [hsplit]
        cases hds0 : ds with
        | nil =>
          obtain ⟨-, -, hfs0⟩ := hemp hds0
          have hdp : NumberDiscover.isDigitpart (fs.map Nat.digitChar) = true :=
            NumberDiscover.isDigitpart_of_digits (by simpa using hfs0) (mem_map_digitChar hfs)
          simp [hdp]
        | cons d dtl =>
          have h1 : NumberDiscover.isDigitpart ((d :: dtl).map Nat.digitChar) = true :=
            NumberDiscover.isDigitpart_of_digits (by simp)
              (mem_map_digitChar (hds0 ▸ hds))
          simp only [List.map_cons] at h1
          by_cases hfs0 : fs = []
          · simp [h1, hfs0]
          · have h2 : NumberDiscover.isDigitpart (fs.map Nat.digitChar) = true :=
              NumberDiscover.isDigitpart_of_digits (by simpa using hfs0) (mem_map_digitChar hfs)
            simp [h1, h2]
      | false =>
        have hds0 : ds ≠ [] := by
          intro h
          obtain ⟨-, hdott, -⟩ := hemp h
          cases hdott
        simp only [Bool.false_eq_true, if_false, List.append_nil]
        unfold NumberDiscover.isMantissa
        rw [NumberDiscover.splitOnceP_eq_none hnodot_ds]
        exact NumberDiscover.isDigitpart_of_digits (by simpa using hds0) (mem_map_digitChar hds)
    have hmag : NumberDiscover.isFloatMagnitude (ds.map Nat.digitChar ++
        (if dot then '.' :: fs.map Nat.digitChar else [])) = true := by
      unfold NumberDiscover.isFloatMagnitude
      rw [NumberDiscover.splitOnceP_eq_none hnoexp]
      exact hmant
    have hnum : NumberDiscover.is_number (render (num neg ds dot fs)) = true := by
      simp only [NumberDiscover.is_number, NumberDiscover.floatBody, hstrip, hdrop, hmag]
      rfl
    have hnan : NumberDiscover.isNanLit (render (num neg ds dot fs)) = false := by
      simp only [NumberDiscover.isNanLit, NumberDiscover.floatBody, NumberDiscover.lowerEq,
        hstrip, hdrop, hb]
      refine beq_eq_false_iff_ne.mpr ?_
      intro hEq
      rw [List.map_cons] at hEq
      have hhd : Char.toLower c0 = 'n' := by
        have := congrArg (fun l => l.head?) hEq
        simpa using this
      exact hc0ne.2.2 hhd
    have hcont : (render (num neg ds dot fs)).data.contains 'e' = false := by
      refine NumberDiscover.contains_eq_false ?_
      intro hmem
      have := data_pred hds hfs (fun c => decide (c = 'e'))
        (fun c hc => by simpa using (NumberDiscover.isDigitCh_spec hc).2.2.2.1)
        (by rfl) (by rfl) 'e' hmem
      simp at this
    have hsplitDot : NumberDiscover.splitOnceP (fun c => c = '.')
        (render (num neg ds dot fs)).data =
        ((if neg then ['-'] else []) ++ ds.map Nat.digitChar,
          if dot then some (fs.map Nat.digitChar) else none) := by
      have hnodot_sgn : ∀ c ∈ (if neg then ['-'] else []) ++ ds.map Nat.digitChar,
          (fun c => decide (c = '.')) c = false := by
        intro c hc
        rcases List.mem_append.mp hc with hc | hc
        · cases neg
          · simp at hc
          · rw [if_pos rfl] at hc
            rw [List.mem_singleton] at hc
            rw [hc]; rfl
        · exact hnodot_ds c hc
      rw [hdata]
      cases dot with
      | true =>
        rw [if_pos rfl, if_pos rfl, show (if neg then ['-'] else []) ++
            (ds.map Nat.digitChar ++ '.' :: fs.map Nat.digitChar) =
            ((if neg then ['-'] else []) ++ ds.map Nat.digitChar) ++
              '.' :: fs.map Nat.digitChar from (List.append_assoc _ _ _).symm]
        exact NumberDiscover.splitOnceP_eq_some (by simp) hnodot_sgn
      | false =>
        simp only [Bool.false_eq_true, if_false, List.append_nil]
        exact NumberDiscover.splitOnceP_eq_none hnodot_sgn
    have hparse : NumberDiscover.pyIntParse ⟨NumberDiscover.preTok
        (render (num neg ds dot fs))⟩ = some (intVal (num neg ds dot fs)) := by
      simp only [NumberDiscover.preTok, hcont, Bool.false_eq_true, if_false, hsplitDot]
      cases hds0 : ds with
      | nil =>
        obtain ⟨hneg0, -, -⟩ := hemp hds0
        subst hneg0
        simp only [Bool.false_eq_true, if_false, List.map_nil, List.append_nil,
          List.isEmpty_nil, if_true]
        rfl
      | cons d dtl =>
        have hpne : ((if neg then ['-'] else []) ++ (d :: dtl).map Nat.digitChar).isEmpty =
            false := by
          cases neg <;> simp
        rw [hpne]
        simp only [Bool.false_eq_true, if_false]
        have hds' : ∀ e ∈ d :: dtl, e < 10 := hds0 ▸ hds
        have hdigs : ∀ c ∈ (d :: dtl).map Nat.digitChar, IsDigitCh c :=
          mem_map_digitChar hds'
        have hsp2 : ∀ c ∈ (if neg then ['-'] else []) ++ (d :: dtl).map Nat.digitChar,
            NumberDiscover.isPySpace c = false := by
          intro c hc
          rcases List.mem_append.mp hc with hc | hc
          · cases neg
            · simp at hc
            · rw [if_pos rfl] at hc
              rw [List.mem_singleton] at hc
              rw [hc]; rfl
          · exact (NumberDiscover.isDigitCh_spec (hdigs c hc)).2.1
        have hsgn2 : NumberDiscover.signOf ((if neg then ['-'] else []) ++
            (d :: dtl).map Nat.digitChar) = (neg, (d :: dtl).map Nat.digitChar) := by
          cases neg
          · simp only [Bool.false_eq_true, if_false, List.nil_append, List.map_cons]
            obtain ⟨-, -, -, -, -, -, h7, h8, -⟩ :=
              NumberDiscover.isDigitCh_spec (hdigs (Nat.digitChar d) (by simp))
            rw [NumberDiscover.signOf_not_sign h8 h7]
          · rw [if_pos rfl, List.singleton_append]
            exact NumberDiscover.signOf_minus _
        have hdp : NumberDiscover.isDigitpart ((d :: dtl).map Nat.digitChar) = true :=
          NumberDiscover.isDigitpart_of_digits (by simp) hdigs
        simp only [NumberDiscover.pyIntParse]
        rw [NumberDiscover.pyStrip_eq_self hsp2, hsgn2]
        simp only [hdp, if_true]
        rw [NumberDiscover.filter_us_of_digits hdigs,
          NumberDiscover.digitsVal_map_digitChar hds']
        rfl
    have hpost : NumberDiscover.postTok (render (num neg ds dot fs)) =
        if dot then some (fs.map Nat.digitChar) else none := by
      simp only [NumberDiscover.postTok, hcont, Bool.false_eq_true, if_false, hsplitDot]
    have hlen : ¬ (render (num neg ds dot fs)).length = 0 := by
      intro h0
      have h1 : (render (num neg ds dot fs)).data = [] := List.length_eq_zero.mp h0
      rw [hdata] at h1
      rcases List.append_eq_nil.mp h1 with ⟨-, h2⟩
      exact hbody_ne h2
    rw [NumberDiscover.go]
    rw [if_neg hlen, if_neg (by simp [hnum]), if_neg (by simp [hnan]), hparse, hpost]
    exact congrArg (fun s1 => NumberDiscover.go s1 rest)
      (numUpd_render st neg ds dot fs hfs hdot)

theorem go_run (l : List PyVal) :
    ∀ (st : NumberDiscover.DiscState), (∀ f ∈ l, f.valid = true) →
      NumberDiscover.go st (l.map render) =
        Except.ok (Sum.inl (l.foldl updState st)) := by
  induction l with
  | nil => intro st _; rfl
  | cons f r ih =>
    intro st h
    rw [List.map_cons, go_step st f (h f (List.mem_cons_self f r)) (r.map render),
      ih (updState st f) (fun g hg => h g (List.mem_cons_of_mem f hg)), List.foldl_cons]

theorem if_lt_max {α : Type} [LinearOrder α] (a b : α) : (if a < b then b else a) = max a b := by
  rcases lt_or_ge a b with h | h
  · simp [h, max_eq_right (le_of_lt h)]
  · simp [not_lt.mpr h, max_eq_left h]

theorem if_gt_min {α : Type} [LinearOrder α] (a b : α) : (if a > b then b else a) = min a b := by
  rcases lt_or_ge b a with h | h
  · simp [h, min_eq_right (le_of_lt h)]
  · simp [not_lt.mpr h, min_eq_left h]

theorem if_gt_max {α : Type} [LinearOrder α] (a b : α) : (if b > a then b else a) = max a b := by
  rcases lt_or_ge a b with h | h
  · simp [h, max_eq_right (le_of_lt h)]
  · simp [not_lt.mpr h, max_eq_left h]

theorem updState_null (st : NumberDiscover.DiscState) :
    updState st null = { st with number_of_nulls := st.number_of_nulls + 1 } := rfl

theorem updState_num (st : NumberDiscover.DiscState) (neg : Bool) (ds : List Nat)
    (dot : Bool) (fs : List Nat) :
    updState st (num neg ds dot fs) =
      { st with
        max_pre := max st.max_pre (intVal (num neg ds dot fs)),
        min_pre := min st.min_pre (intVal (num neg ds dot fs)),
        pre_dot_max_length := max st.pre_dot_max_length (intDigits (num neg ds dot fs)),
        post_dot_max_length :=
          max st.post_dot_max_length (fracLen (num neg ds dot fs)) } := by
  simp only [updState]
  rw [if_gt_max, if_gt_max, if_lt_max, if_gt_min]

theorem foldl_nulls (l : List PyVal) :
    ∀ st : NumberDiscover.DiscState,
      (l.foldl updState st).number_of_nulls = st.number_of_nulls + countNulls l := by
  induction l with
  | nil => intro st; simp [countNulls]
  | cons f r ih =>
    intro st
    rw [List.foldl_cons, ih]
    cases f with
    | null =>
      simp [updState_null, countNulls, isNull, List.countP_cons]
      omega
    | num neg ds dot fs =>
      simp [updState_num, countNulls, isNull, List.countP_cons]

theorem foldl_post (l : List PyVal) :
    ∀ st : NumberDiscover.DiscState,
      (l.foldl updState st).post_dot_max_length =
        l.foldl (fun a f => max a f.fracLen) st.post_dot_max_length := by
  induction l with
  | nil => intro st; rfl
  | cons f r ih =>
    intro st
    rw [List.foldl_cons, List.foldl_cons, ih]
    cases f with
    | null => simp [updState_null, fracLen, Nat.max_zero]
    | num neg ds dot fs => rw [updState_num]

theorem foldl_pre (l : List PyVal) :
    ∀ st : NumberDiscover.DiscState,
      (l.foldl updState st).pre_dot_max_length =
        l.foldl (fun a f => max a f.intDigits) st.pre_dot_max_length := by
  induction l with
  | nil => intro st; rfl
  | cons f r ih =>
    intro st
    rw [List.foldl_cons, List.foldl_cons, ih]
    cases f with
    | null => simp [updState_null, intDigits, Nat.max_zero]
    | num neg ds dot fs => rw [updState_num]

theorem foldl_max (l : List PyVal) :
    ∀ st : NumberDiscover.DiscState,
      (l.foldl updState st).max_pre =
        l.foldl (fun a f => if f.isNull then a else max a f.intVal) st.max_pre := by
  induction l with
  | nil => intro st; rfl
  | cons f r ih =>
    intro st
    rw [List.foldl_cons, List.foldl_cons, ih]
    cases f with
    | null => rw [updState_null]; rfl
    | num neg ds dot fs => rw [updState_num]; rfl

theorem foldl_min (l : List PyVal) :
    ∀ st : NumberDiscover.DiscState,
      (l.foldl updState st).min_pre =
        l.foldl (fun a f => if f.isNull then a else min a f.intVal) st.min_pre := by
  induction l with
  | nil => intro st; rfl
  | cons f r ih =>
    intro st
    rw [List.foldl_cons, List.foldl_cons, ih]
    cases f with
    | null => rw [updState_null]; rfl
    | num neg ds dot fs => rw [updState_num]; rfl

theorem go_characterize (l : List PyVal) (h : ∀ f ∈ l, f.valid = true) :
    NumberDiscover.go NumberDiscover.initState (l.map render) =
      Except.ok (Sum.inl
        ⟨maxIntDigits l, maxFracLen l, countNulls l, maxPreVal l, minPreVal l⟩) := by
  rw [go_run l NumberDiscover.initState h]
  have hfold : l.foldl updState NumberDiscover.initState =
      ⟨maxIntDigits l, maxFracLen l, countNulls l, maxPreVal l, minPreVal l⟩ := by
    have h1 := foldl_pre l NumberDiscover.initState
    have h2 := foldl_post l NumberDiscover.initState
    have h3 := foldl_nulls l NumberDiscover.initState
    have h4 := foldl_max l NumberDiscover.initState
    have h5 := foldl_min l NumberDiscover.initState
    have heta : l.foldl updState NumberDiscover.initState =
        ⟨(l.foldl updState NumberDiscover.initState).pre_dot_max_length,
         (l.foldl updState NumberDiscover.initState).post_dot_max_length,
         (l.foldl updState NumberDiscover.initState).number_of_nulls,
         (l.foldl updState NumberDiscover.initState).max_pre,
         (l.foldl updState NumberDiscover.initState).min_pre⟩ := rfl
    rw [heta, h1, h2, h3, h4, h5]
    simp [NumberDiscover.initState, maxIntDigits, maxFracLen, maxPreVal, minPreVal]
  rw [hfold]

theorem discover_render (l : List PyVal) (h : ∀ f ∈ l, f.valid = true) :
    NumberDiscover.discover (l.map render) =
      Except.ok (NumberDiscover.finalize l.length
        ⟨maxIntDigits l, maxFracLen l, countNulls l, maxPreVal l, minPreVal l⟩) := by
  unfold NumberDiscover.discover
  rw [go_characterize l h]
  simp [List.length_map]

theorem maxFracLen_zero {l : List PyVal} (h : ∀ f ∈ l, f.fracLen = 0) :
    maxFracLen l = 0 := by
  unfold maxFracLen
  induction l with
  | nil => rfl
  | cons f r ih =>
    rw [List.foldl_cons, h f (List.mem_cons_self f r), Nat.max_zero]
    exact ih (fun g hg => h g (List.mem_cons_of_mem f hg))

theorem maxFracLen_aux (l : List PyVal) :
    ∀ acc : Nat, l.foldl (fun a f => max a f.fracLen) acc = 0 →
      acc = 0 ∧ ∀ f ∈ l, f.fracLen = 0 := by
  induction l with
  | nil => intro acc h; exact ⟨h, by simp⟩
  | cons f r ih =>
    intro acc h
    rw [List.foldl_cons] at h
    obtain ⟨hmax, hr⟩ := ih (max acc f.fracLen) h
    rcases Nat.max_eq_zero_iff.mp hmax with ⟨h1, h2⟩
    refine ⟨h1, ?_⟩
    intro g hg
    rcases List.mem_cons.mp hg with hg | hg
    · rw [hg]; exact h2
    · exact hr g hg

theorem maxFracLen_pos {l : List PyVal} (h : ∃ f ∈ l, f.fracLen ≠ 0) :
    ¬ maxFracLen l = 0 := by
  intro h0
  obtain ⟨f, hf, hfl⟩ := h
  exact hfl ((maxFracLen_aux l 0 h0).2 f hf)

theorem countNulls_lt {l : List PyVal} (h : ∃ f ∈ l, f.isNull = false) :
    ¬ countNulls l = l.length := by
  intro h0
  obtain ⟨f, hf, hfn⟩ := h
  have := (List.countP_eq_length.mp h0) f hf
  rw [hfn] at this
  cases this

theorem discover_int_branch (l : List PyVal) (h1 : ∀ f ∈ l, f.valid = true)
    (h2 : ∀ f ∈ l, f.fracLen = 0) (h3 : ¬ countNulls l = l.length) :
    NumberDiscover.discover (l.map render) =
      Except.ok (intRangeName (minPreVal l) (maxPreVal l)) := by
  rw [discover_render l h1]
  unfold NumberDiscover.finalize intRangeName
  simp only [if_neg h3, maxFracLen_zero h2, if_pos rfl]
  split_ifs <;> rfl

theorem discover_decimal_branch (l : List PyVal) (h1 : ∀ f ∈ l, f.valid = true)
    (h2 : ∃ f ∈ l, f.fracLen ≠ 0) (h3 : ¬ countNulls l = l.length) :
    NumberDiscover.discover (l.map render) =
      Except.ok ("decimal(" ++ Nat.repr (maxIntDigits l + maxFracLen l) ++ ", " ++
        Nat.repr (maxFracLen l) ++ ")") := by
  rw [discover_render l h1]
  unfold NumberDiscover.finalize
  rw [if_neg h3, if_neg (maxFracLen_pos h2)]

end PyVal

namespace NumberDiscover

theorem str_length_zero {v : String} : v.length = 0 ↔ v = "" := by
  cases v with
  | mk d =>
    constructor
    · intro h
      rw [List.length_eq_zero.mp h]
    · intro h
      rw [h]
      rfl

theorem isNanLit_imp {v : String} (h : isNanLit v = true) :
    is_number v = true ∧ ¬ v.length = 0 := by
  constructor
  · simp only [is_number]
    simp only [isNanLit] at h
    rw [h]
    simp
  · intro h0
    rw [str_length_zero.mp h0] at h
    exact absurd h (by decide)

theorem go_nan_step {v : String} (h : isNanLit v = true) (st : DiscState)
    (rest : List String) :
    go st (v :: rest) =
      go { st with number_of_nulls := st.number_of_nulls + 1 } rest := by
  obtain ⟨hnum, hlen⟩ := isNanLit_imp h
  rw [go, if_neg hlen, if_neg (by simp [hnum]), if_pos h]

theorem go_num_step {v : String} (hlen : ¬ v.length = 0) (hnum : is_number v = true)
    (hnan : isNanLit v = false) {n : Int} (hsome : pyIntParse ⟨preTok v⟩ = some n)
    (st : DiscState) (rest : List String) :
    go st (v :: rest) = go (numUpd st n (postTok v)) rest := by
  rw [go, if_neg hlen, if_neg (by simp [hnum]), if_neg (by simp [hnan]), hsome]

theorem go_all_null (values : List String) :
    ∀ st : DiscState, (∀ v ∈ values, v = "") →
      go st values = Except.ok (Sum.inl
        { st with number_of_nulls := st.number_of_nulls + values.length }) := by
  induction values with
  | nil => intro st _; simp [go]
  | cons v r ih =>
    intro st h
    rw [h v (List.mem_cons_self v r)]
    rw [go, if_pos (by rfl)]
    rw [ih _ (fun w hw => h w (List.mem_cons_of_mem v hw))]
    have hx : st.number_of_nulls + 1 + r.length = st.number_of_nulls + (v :: r).length := by
      rw [List.length_cons]
      omega
    exact congrArg (fun k => Except.ok (Sum.inl
      { st with number_of_nulls := k })) hx

theorem go_all_nan (values : List String) :
    ∀ st : DiscState, (∀ v ∈ values, isNanLit v = true) →
      go st values = Except.ok (Sum.inl
        { st with number_of_nulls := st.number_of_nulls + values.length }) := by
  induction values with
  | nil => intro st _; simp [go]
  | cons v r ih =>
    intro st h
    rw [go_nan_step (h v (List.mem_cons_self v r))]
    rw [ih _ (fun w hw => h w (List.mem_cons_of_mem v hw))]
    have hx : st.number_of_nulls + 1 + r.length = st.number_of_nulls + (v :: r).length := by
      rw [List.length_cons]
      omega
    exact congrArg (fun k => Except.ok (Sum.inl
      { st with number_of_nulls := k })) hx

theorem go_poison (values : List String) :
    ∀ st : DiscState, (∃ v ∈ values, ¬ v = "" ∧ is_number v = false) →
      (∀ v ∈ values, procOk v = true) →
      go st values = Except.ok (Sum.inr ()) := by
  induction values with
  | nil =>
    intro st h _
    obtain ⟨v, hv, -⟩ := h
    simp at hv
  | cons v r ih =>
    intro st h1 h2
    have hpv := h2 v (List.mem_cons_self v r)
    by_cases hnum : is_number v = false
    · by_cases hlen : v.length = 0
      · rw [go, if_pos hlen]
        refine ih _ ?_ (fun w hw => h2 w (List.mem_cons_of_mem v hw))
        obtain ⟨w, hw, hw1, hw2⟩ := h1
        rcases List.mem_cons.mp hw with hweq | hw
        · exact absurd (by rw [hweq]; exact str_length_zero.mp hlen) hw1
        · exact ⟨w, hw, hw1, hw2⟩
      · rw [go, if_neg hlen, if_pos hnum]
    · have hnumT : is_number v = true := by
        simpa using hnum
      have hwit : ∃ w ∈ r, ¬ w = "" ∧ is_number w = false := by
        obtain ⟨w, hw, hw1, hw2⟩ := h1
        rcases List.mem_cons.mp hw with hweq | hw
        · rw [hweq, hnumT] at hw2
          cases hw2
        · exact ⟨w, hw, hw1, hw2⟩
      have hlen : ¬ v.length = 0 := by
        intro h0
        rw [str_length_zero.mp h0] at hnumT
        exact absurd hnumT (by decide)
      by_cases hnan : isNanLit v = true
      · rw [go_nan_step hnan]
        exact ih _ hwit (fun w hw => h2 w (List.mem_cons_of_mem v hw))
      · have hnanF : isNanLit v = false := by simpa using hnan
        have hsome : (pyIntParse ⟨preTok v⟩).isSome = true := by
          simp only [procOk, Bool.or_eq_true, decide_eq_true_eq, Bool.not_eq_true'] at hpv
          rcases hpv with ((hl | hn) | hnn) | hs
          · exact absurd hl hlen
          · rw [hn] at hnumT
            cases hnumT
          · rw [hnn] at hnanF
            cases hnanF
          · exact hs
        obtain ⟨n, hn⟩ := Option.isSome_iff_exists.mp hsome
        rw [go_num_step hlen hnumT hnanF hn]
        exact ih _ hwit (fun w hw => h2 w (List.mem_cons_of_mem v hw))

end NumberDiscover

namespace SchemaDiscovery

theorem str_append_data (a b : String) : (a ++ b).data = a.data ++ b.data := by
  cases a
  cases b
  rfl

theorem str_mk_append (a b : String) : String.mk (a.data ++ b.data) = a ++ b := by
  cases a
  cases b
  rfl

theorem foldl_colDefs :
    ∀ (ts : List (String × String)) (t : String × String) (acc : String),
      ((t :: ts).foldl (fun a ct => a ++ colDef ct ++ ",") acc).data.dropLast =
        acc.data ++ (commaJoin ((t :: ts).map colDef)).data := by
  intro ts
  induction ts with
  | nil =>
    intro t acc
    rw [List.foldl_cons, List.foldl_nil, str_append_data]
    rw [show ("," : String).data = [','] from rfl]
    rw [show (acc ++ colDef t).data ++ [','] =
      ((acc ++ colDef t).data ++ [','] : List Char) from rfl]
    rw [List.dropLast_concat, str_append_data]
    rfl
  | cons t2 ts2 ih =>
    intro t acc
    rw [List.foldl_cons]
    rw [ih t2 (acc ++ colDef t ++ ",")]
    rw [str_append_data, str_append_data]
    rw [show ("," : String).data = [','] from rfl]
    rw [List.append_assoc, List.append_assoc]
    congr 1
    rw [show commaJoin ((t :: t2 :: ts2).map colDef) =
      colDef t ++ "," ++ commaJoin ((t2 :: ts2).map colDef) from rfl]
    rw [str_append_data, str_append_data]
    rw [show ("," : String).data = [','] from rfl]
    rw [List.append_assoc]

theorem to_sql_nonempty (name : String) (t : String × String)
    (ts : List (String × String)) :
    to_sql name (t :: ts) =
      Except.ok ("CREATE TABLE \"" ++ name ++ "\" (" ++
        commaJoin ((t :: ts).map colDef) ++ "\n);") := by
  simp only [to_sql]
  rw [if_neg (by simp)]
  rw [foldl_colDefs ts t ("CREATE TABLE \"" ++ name ++ "\" (")]
  rw [str_mk_append]

end SchemaDiscovery

theorem validSci_iff {ds : List Nat} {dot : Bool} {fs es : List Nat}
    (h : validSci ds dot fs es = true) :
    (∀ d ∈ ds, d < 10) ∧ (∀ d ∈ fs, d < 10) ∧ (∀ d ∈ es, d < 10) ∧ es ≠ [] ∧
      (dot = false → fs = []) ∧ (ds = [] → dot = true ∧ fs ≠ []) := by
  simp only [validSci, Bool.and_eq_true, List.all_eq_true, decide_eq_true_eq, Bool.or_eq_true,
    Bool.not_eq_true', List.isEmpty_iff] at h
  obtain ⟨⟨⟨⟨⟨h1, h2⟩, h3⟩, h4⟩, h5⟩, h6⟩ := h
  refine ⟨h1, h2, h3, ?_, ?_, ?_⟩
  · intro hx
    rw [hx] at h4
    simp at h4
  · intro hdot
    rcases h5 with h5 | h5
    · rw [hdot] at h5
      cases h5
    · exact h5
  · intro hds
    have hfs : fs ≠ [] := by
      rcases h6 with h6 | h6
      · rw [hds] at h6
        simp at h6
      · intro hx
        rw [hx] at h6
        simp at h6
    refine ⟨?_, hfs⟩
    rcases h5 with h5 | h5
    · exact h5
    · exact absurd h5 hfs

theorem fixedValChars_cons {c0 : Char} (bt : List Char) (h1 : ¬ c0 = '-') (h2 : ¬ c0 = '+')
    (neg : Bool) :
    fixedValChars ((if neg then ['-'] else []) ++ c0 :: bt) =
      (if neg then (-1 : ℚ) else 1) * fixedMagChars (c0 :: bt) := by
  cases neg
  · simp only [Bool.false_eq_true, if_false, List.nil_append]
    simp only [fixedValChars, NumberDiscover.signOf_not_sign h1 h2]
    simp
  · rw [if_pos rfl, if_pos rfl, List.singleton_append]
    simp only [fixedValChars, NumberDiscover.signOf_minus]
    simp

theorem fixedValChars_append (neg : Bool) (body : List Char) (hne : body ≠ [])
    (hh : ∀ x ∈ body, ¬ x = '-' ∧ ¬ x = '+') :
    fixedValChars ((if neg then ['-'] else []) ++ body) =
      (if neg then (-1 : ℚ) else 1) * fixedMagChars body := by
  obtain ⟨c0, bt, hb⟩ := List.exists_cons_of_ne_nil hne
  rw [hb]
  have hc0 := hh c0 (by rw [hb]; exact List.mem_cons_self c0 bt)
  exact fixedValChars_cons bt hc0.1 hc0.2 neg

theorem fixedMag_low (D : List Char) (k : Nat) :
    fixedMagChars ('0' :: '.' :: (List.replicate k '0' ++ D)) =
      (NumberDiscover.digitsVal D : ℚ) / 10 ^ (k + D.length) := by
  unfold fixedMagChars
  rw [show ('0' :: '.' :: (List.replicate k '0' ++ D)) =
    ['0'] ++ '.' :: (List.replicate k '0' ++ D) from rfl]
  rw [NumberDiscover.splitOnceP_eq_some (by simp)
    (by intro x hx; rw [List.mem_singleton] at hx; rw [hx]; rfl)]
  show (NumberDiscover.digitsVal ['0'] : ℚ) +
      (NumberDiscover.digitsVal (List.replicate k '0' ++ D) : ℚ) /
        10 ^ (List.replicate k '0' ++ D).length =
    (NumberDiscover.digitsVal D : ℚ) / 10 ^ (k + D.length)
  rw [NumberDiscover.digitsVal_append, NumberDiscover.digitsVal_replicate_zero]
  simp [NumberDiscover.digitsVal, NumberDiscover.digitVal, List.length_append,
    List.length_replicate]

theorem fixedMag_nodot (l : List Char) (h : ∀ x ∈ l, ¬ x = '.') :
    fixedMagChars l = (NumberDiscover.digitsVal l : ℚ) := by
  unfold fixedMagChars
  rw [NumberDiscover.splitOnceP_eq_none (by intro x hx; simpa using h x hx)]

theorem fixedMag_mid (D : List Char) (hdig : ∀ x ∈ D, IsDigitCh x) (t : Nat) :
    fixedMagChars (D.take t ++ '.' :: D.drop t) =
      (NumberDiscover.digitsVal (D.take t) : ℚ) +
        (NumberDiscover.digitsVal (D.drop t) : ℚ) / 10 ^ (D.drop t).length := by
  unfold fixedMagChars
  rw [NumberDiscover.splitOnceP_eq_some (by simp)
    (by
      intro x hx
      simpa using
        (NumberDiscover.isDigitCh_spec (hdig x (List.mem_of_mem_take hx))).2.2.1)]

theorem low_algebra (s : ℚ) (c M : Nat) (dexp0 : Int) (hm : (M : Int) = -dexp0) :
    s * ((c : ℚ) / 10 ^ M) = s * (c : ℚ) * (10 : ℚ) ^ dexp0 := by
  have hde : dexp0 = -((M : Nat) : Int) := by omega
  rw [hde, zpow_neg, zpow_natCast, div_eq_mul_inv]
  ring

theorem pad_algebra (s : ℚ) (c k : Nat) (dexp0 : Int) (hk : (k : Int) = dexp0) :
    s * ((c * 10 ^ k : Nat) : ℚ) = s * (c : ℚ) * (10 : ℚ) ^ dexp0 := by
  rw [← hk, zpow_natCast]
  push_cast
  ring

theorem mid_algebra (s : ℚ) (vt vd m c : Nat) (dexp0 : Int)
    (hc : vt * 10 ^ m + vd = c) (hm : (m : Int) = -dexp0) :
    s * ((vt : ℚ) + (vd : ℚ) / 10 ^ m) = s * (c : ℚ) * (10 : ℚ) ^ dexp0 := by
  have hde : dexp0 = -((m : Nat) : Int) := by omega
  rw [hde, zpow_neg, zpow_natCast, ← hc]
  have hpow : (0 : ℚ) < 10 ^ m := by positivity
  push_cast
  field_simp

theorem fixedValChars_fixedRender (neg : Bool) (c : Nat) (dexp0 : Int) :
    fixedValChars (NumberDiscover.fixedRender neg c dexp0) =
      (if neg then (-1 : ℚ) else 1) * (c : ℚ) * (10 : ℚ) ^ dexp0 := by
  obtain ⟨hDne, hDdig, hDval⟩ := NumberDiscover.toDigits_spec c
  have hDsign : ∀ x ∈ Nat.toDigits 10 c, ¬ x = '-' ∧ ¬ x = '+' := fun x hx =>
    ⟨(NumberDiscover.isDigitCh_spec (hDdig x hx)).2.2.2.2.2.2.2.1,
      (NumberDiscover.isDigitCh_spec (hDdig x hx)).2.2.2.2.2.2.1⟩
  have hnodotD : ∀ x ∈ Nat.toDigits 10 c, ¬ x = '.' := fun x hx =>
    (NumberDiscover.isDigitCh_spec (hDdig x hx)).2.2.1
  have hlen1 : 1 ≤ (Nat.toDigits 10 c).length := List.length_pos.mpr hDne
  have hrhs : ∀ dexp : Int, (¬ (c = 0 ∧ 0 < dexp0) → dexp = dexp0) →
      ((c = 0 ∧ 0 < dexp0) → dexp = 0) →
      (if neg then (-1 : ℚ) else 1) * (c : ℚ) * (10 : ℚ) ^ dexp0 =
        (if neg then (-1 : ℚ) else 1) * (c : ℚ) * (10 : ℚ) ^ dexp := by
    intro dexp hne hyes
    by_cases hz : c = 0 ∧ 0 < dexp0
    · rw [hyes hz, hz.1]
      push_cast
      ring
    · rw [hne hz]
  rw [show NumberDiscover.fixedRender neg c dexp0 =
    (if neg then ['-'] else []) ++
      (if (if c = 0 ∧ 0 < dexp0 then 0 else dexp0) + ((Nat.toDigits 10 c).length : Int) < 1 then
        '0' :: '.' :: (List.replicate
          (-((if c = 0 ∧ 0 < dexp0 then 0 else dexp0) +
            ((Nat.toDigits 10 c).length : Int))).toNat '0' ++ Nat.toDigits 10 c)
      else if ((Nat.toDigits 10 c).length : Int) ≤
          (if c = 0 ∧ 0 < dexp0 then 0 else dexp0) + ((Nat.toDigits 10 c).length : Int) then
        Nat.toDigits 10 c ++ List.replicate
          ((if c = 0 ∧ 0 < dexp0 then 0 else dexp0) + ((Nat.toDigits 10 c).length : Int) -
            ((Nat.toDigits 10 c).length : Int)).toNat '0'
      else
        (Nat.toDigits 10 c).take ((if c = 0 ∧ 0 < dexp0 then 0 else dexp0) +
            ((Nat.toDigits 10 c).length : Int)).toNat ++
          '.' :: (Nat.toDigits 10 c).drop ((if c = 0 ∧ 0 < dexp0 then 0 else dexp0) +
            ((Nat.toDigits 10 c).length : Int)).toNat) from rfl]
  by_cases hz : c = 0 ∧ 0 < dexp0
  · rw [hrhs 0 (fun hn => absurd hz hn) (fun _ => rfl)]
    rw [if_pos hz]
    rw [if_neg (show ¬ ((0 : Int) + ((Nat.toDigits 10 c).length : Int) < 1) by omega)]
    rw [if_pos (show ((Nat.toDigits 10 c).length : Int) ≤
      (0 : Int) + ((Nat.toDigits 10 c).length : Int) by omega)]
    rw [show ((0 : Int) + ((Nat.toDigits 10 c).length : Int) -
      ((Nat.toDigits 10 c).length : Int)).toNat = 0 by omega]
    rw [List.replicate_zero, List.append_nil,
      fixedValChars_append neg _ hDne hDsign, fixedMag_nodot _ hnodotD, hDval]
    norm_num
  · rw [hrhs dexp0 (fun _ => rfl) (fun hy => absurd hy hz)]
    rw [if_neg hz]
    by_cases h1 : dexp0 + ((Nat.toDigits 10 c).length : Int) < 1
    · rw [if_pos h1]
      rw [fixedValChars_append neg _ (by simp) (by
        intro x hx
        rcases List.mem_cons.mp hx with hx | hx
        · rw [hx]; exact ⟨by decide, by decide⟩
        rcases List.mem_cons.mp hx with hx | hx
        · rw [hx]; exact ⟨by decide, by decide⟩
        rcases List.mem_append.mp hx with hx | hx
        · rw [List.eq_of_mem_replicate hx]; exact ⟨by decide, by decide⟩
        · exact hDsign x hx)]
      rw [fixedMag_low, hDval]
      exact low_algebra _ c _ dexp0 (by omega)
    · rw [if_neg h1]
      by_cases h2 : ((Nat.toDigits 10 c).length : Int) ≤
          dexp0 + ((Nat.toDigits 10 c).length : Int)
      · rw [if_pos h2]
        rw [fixedValChars_append neg _ (by
          intro hx
          exact hDne (List.append_eq_nil.mp hx).1) (by
          intro x hx
          rcases List.mem_append.mp hx with hx | hx
          · exact hDsign x hx
          · rw [List.eq_of_mem_replicate hx]; exact ⟨by decide, by decide⟩)]
        rw [fixedMag_nodot _ (by
          intro x hx
          rcases List.mem_append.mp hx with hx | hx
          · exact hnodotD x hx
          · rw [List.eq_of_mem_replicate hx]; decide)]
        rw [NumberDiscover.digitsVal_append, NumberDiscover.digitsVal_replicate_zero,
          hDval, List.length_replicate, Nat.add_zero]
        exact pad_algebra _ c _ dexp0 (by omega)
      · rw [if_neg h2]
        rw [fixedValChars_append neg _ (by simp) (by
          intro x hx
          rcases List.mem_append.mp hx with hx | hx
          · exact hDsign x (List.mem_of_mem_take hx)
          rcases List.mem_cons.mp hx with hx | hx
          · rw [hx]; exact ⟨by decide, by decide⟩
          · exact hDsign x (List.mem_of_mem_drop hx))]
        rw [fixedMag_mid _ hDdig]
        refine mid_algebra _ _ _ _ c dexp0 ?_ ?_
        · rw [← NumberDiscover.digitsVal_append, List.take_append_drop, hDval]
        · rw [List.length_drop]
          omega

theorem sciExpand_renderSci (neg : Bool) (ds : List Nat) (dot : Bool) (fs : List Nat)
    (eneg : Bool) (es : List Nat) (hv : validSci ds dot fs es = true) :
    NumberDiscover.sciExpand (renderSci neg ds dot fs eneg es) =
      ⟨NumberDiscover.fixedRender neg (PyVal.valOfDigits (ds ++ fs))
        ((if eneg then -(PyVal.valOfDigits es : Int) else (PyVal.valOfDigits es : Int)) -
          (fs.length : Int))⟩ := by
  obtain ⟨hds, hfs, hes, hesne, hdot, hemp⟩ := validSci_iff hv
  have hdata : (renderSci neg ds dot fs eneg es).data =
      (if neg then ['-'] else []) ++
        ((ds.map Nat.digitChar ++ (if dot then '.' :: fs.map Nat.digitChar else [])) ++
          'e' :: ((if eneg then ['-'] else []) ++ es.map Nat.digitChar)) := by
    simp [renderSci, List.append_assoc]
  have hbody_ne : ds.map Nat.digitChar ++
      (if dot then '.' :: fs.map Nat.digitChar else []) ≠ [] := by
    cases hds0 : ds with
    | nil =>
      obtain ⟨hdott, -⟩ := hemp hds0
      rw [hdott]
      simp
    | cons d dtl => simp
  obtain ⟨c0, bt, hb⟩ := List.exists_cons_of_ne_nil hbody_ne
  have hc0 : IsDigitCh c0 ∨ c0 = '.' :=
    PyVal.body_chars hds hfs c0 (by rw [hb]; exact List.mem_cons_self c0 bt)
  have hc0ne : ¬ c0 = '-' ∧ ¬ c0 = '+' := by
    rcases hc0 with h | h
    · obtain ⟨-, -, -, -, -, -, h7, h8, -⟩ := NumberDiscover.isDigitCh_spec h
      exact ⟨h8, h7⟩
    · rw [h]
      exact ⟨by decide, by decide⟩
  have hsp : ∀ c ∈ (renderSci neg ds dot fs eneg es).data,
      NumberDiscover.isPySpace c = false := by
    rw [hdata]
    intro c hc
    rcases List.mem_append.mp hc with hc | hc
    · cases neg
      · simp at hc
      · rw [if_pos rfl] at hc
        rw [List.mem_singleton] at hc
        rw [hc]
        rfl
    · rcases List.mem_append.mp hc with hc | hc
      · exact PyVal.body_pred hds hfs _
          (fun c h => (NumberDiscover.isDigitCh_spec h).2.1) rfl c hc
      · rcases List.mem_cons.mp hc with hc | hc
        · rw [hc]
          rfl
        · rcases List.mem_append.mp hc with hc | hc
          · cases eneg
            · simp at hc
            · rw [if_pos rfl] at hc
              rw [List.mem_singleton] at hc
              rw [hc]
              rfl
          · exact (NumberDiscover.isDigitCh_spec (NumberDiscover.mem_map_digitChar hes c hc)).2.1
  have hstrip := NumberDiscover.pyStrip_eq_self hsp
  have hsgn : NumberDiscover.signOf ((if neg then ['-'] else []) ++
      ((ds.map Nat.digitChar ++ (if dot then '.' :: fs.map Nat.digitChar else [])) ++
        'e' :: ((if eneg then ['-'] else []) ++ es.map Nat.digitChar))) =
      (neg, (ds.map Nat.digitChar ++ (if dot then '.' :: fs.map Nat.digitChar else [])) ++
        'e' :: ((if eneg then ['-'] else []) ++ es.map Nat.digitChar)) := by
    cases neg
    · simp only [Bool.false_eq_true, if_false, List.nil_append]
      rw [hb, List.cons_append, NumberDiscover.signOf_not_sign hc0ne.1 hc0ne.2,
        ← List.cons_append, ← hb]
    · rw [if_pos rfl, List.singleton_append]
      exact NumberDiscover.signOf_minus _
  have hnoexp : ∀ c ∈ ds.map Nat.digitChar ++
      (if dot then '.' :: fs.map Nat.digitChar else []), NumberDiscover.isExpChar c = false := by
    refine PyVal.body_pred hds hfs _ ?_ rfl
    intro c hc
    obtain ⟨-, -, -, h4, h5, -⟩ := NumberDiscover.isDigitCh_spec hc
    simp [NumberDiscover.isExpChar, h4, h5]
  have hsplitE : NumberDiscover.splitOnceP NumberDiscover.isExpChar
      ((ds.map Nat.digitChar ++ (if dot then '.' :: fs.map Nat.digitChar else [])) ++
        'e' :: ((if eneg then ['-'] else []) ++ es.map Nat.digitChar)) =
      (ds.map Nat.digitChar ++ (if dot then '.' :: fs.map Nat.digitChar else []),
        some ((if eneg then ['-'] else []) ++ es.map Nat.digitChar)) :=
    NumberDiscover.splitOnceP_eq_some (by rfl) hnoexp
  have hesC_ne : es.map Nat.digitChar ≠ [] := by
    simpa using hesne
  obtain ⟨e0, etl, hesC⟩ := List.exists_cons_of_ne_nil hesC_ne
  have hesg : NumberDiscover.signOf ((if eneg then ['-'] else []) ++ es.map Nat.digitChar) =
      (eneg, es.map Nat.digitChar) := by
    cases eneg
    · simp only [Bool.false_eq_true, if_false, List.nil_append]
      have he0 : IsDigitCh e0 := by
        refine NumberDiscover.mem_map_digitChar hes e0 ?_
        rw [hesC]
        exact List.mem_cons_self e0 etl
      obtain ⟨-, -, -, -, -, -, h7, h8, -⟩ := NumberDiscover.isDigitCh_spec he0
      rw [hesC, NumberDiscover.signOf_not_sign h8 h7, ← hesC]
    · rw [if_pos rfl, List.singleton_append]
      exact NumberDiscover.signOf_minus _
  have hnodot_ds : ∀ c ∈ ds.map Nat.digitChar, (fun c => decide (c = '.')) c = false := by
    intro c hc
    simpa using (NumberDiscover.isDigitCh_spec (NumberDiscover.mem_map_digitChar hds c hc)).2.2.1
  have hspDot : NumberDiscover.splitOnceP (fun c => c = '.')
      (ds.map Nat.digitChar ++ (if dot then '.' :: fs.map Nat.digitChar else [])) =
      (ds.map Nat.digitChar, if dot then some (fs.map Nat.digitChar) else none) := by
    cases dot
    · simp only [Bool.false_eq_true, if_false, List.append_nil]
      exact NumberDiscover.splitOnceP_eq_none hnodot_ds
    · rw [if_pos rfl, if_pos rfl]
      exact NumberDiscover.splitOnceP_eq_some (by simp) hnodot_ds
  have hgetD : (Option.getD (if dot then some (fs.map Nat.digitChar) else none) []) =
      fs.map Nat.digitChar := by
    cases hdt : dot
    · rw [hdot hdt]
      rfl
    · rfl
  rw [hdata] at hstrip
  simp only [NumberDiscover.sciExpand, hdata, hstrip, hsgn, hsplitE, hesg, hspDot, hgetD]
  rw [NumberDiscover.filter_us_of_digits (NumberDiscover.mem_map_digitChar hds),
    NumberDiscover.filter_us_of_digits (NumberDiscover.mem_map_digitChar hfs),
    NumberDiscover.filter_us_of_digits (NumberDiscover.mem_map_digitChar hes)]
  rw [show ds.map Nat.digitChar ++ fs.map Nat.digitChar =
    (ds ++ fs).map Nat.digitChar from (List.map_append Nat.digitChar ds fs).symm]
  rw [NumberDiscover.digitsVal_map_digitChar (by
    intro d hd
    rcases List.mem_append.mp hd with h | h
    · exact hds d h
    · exact hfs d h)]
  rw [NumberDiscover.digitsVal_map_digitChar hes, List.length_map]

/-- C1 (code bug): the classifier is not total.  A value that passes the
float-based numeric-syntax check but whose integer-part token is not a
plain decimal numeral — an uppercase exponent marker (`"1E5"`) or an
infinity literal (`"inf"`, `"Infinity"`) — reaches `int(pre_dot_string)`
unexpanded and raises a `ValueError` instead of resolving to a `String`
verdict. -/
theorem discover_raises_on_unexpanded_numeric_forms :
    NumberDiscover.discover ["1E5"] = Except.error () ∧
    NumberDiscover.discover ["inf"] = Except.error () ∧
    NumberDiscover.discover ["Infinity"] = Except.error () :=
  ⟨rfl, rfl, rfl⟩

/-- C2: for a nonempty column of well-formed, non-null numerals with no
genuine fractional part, `discover` returns exactly the integer-range
cascade `intRangeName` applied to the tracked minimum and maximum
integer values (strict lower bound, inclusive upper bound, smallest
type first). -/
theorem discover_integer_range_fit (l : List PyVal) (h0 : l ≠ [])
    (h1 : ∀ f ∈ l, f.valid = true ∧ f.isNull = false ∧ f.fracLen = 0) :
    NumberDiscover.discover (l.map PyVal.render) =
      Except.ok (intRangeName (minPreVal l) (maxPreVal l)) := by
  refine PyVal.discover_int_branch l (fun f hf => (h1 f hf).1) (fun f hf => (h1 f hf).2.2) ?_
  have hz : countNulls l = 0 := by
    unfold countNulls
    rw [List.countP_eq_zero]
    intro f hf
    simp [(h1 f hf).2.1]
  rw [hz]
  intro hlen
  exact h0 (List.length_eq_zero.mp hlen.symm)

theorem discover_integer_range_fit_witness :
    NumberDiscover.discover ["0", "1", "2", "127", "-127"] = Except.ok "tinyint" ∧
    NumberDiscover.discover ["-32767", "32767"] = Except.ok "smallint" ∧
    NumberDiscover.discover ["-128", "127"] = Except.ok "smallint" :=
  ⟨discover_integer_range_fit
      [PyVal.num false [0] false [], PyVal.num false [1] false [],
        PyVal.num false [2] false [], PyVal.num false [1, 2, 7] false [],
        PyVal.num true [1, 2, 7] false []] (by decide) (by decide),
    discover_integer_range_fit
      [PyVal.num true [3, 2, 7, 6, 7] false [], PyVal.num false [3, 2, 7, 6, 7] false []]
      (by decide) (by decide),
    discover_integer_range_fit
      [PyVal.num true [1, 2, 8] false [], PyVal.num false [1, 2, 7] false []]
      (by decide) (by decide)⟩

/-- C3: for a column of well-formed numerals that is not all-null and in
which some value carries a genuine fractional part after trailing-zero
stripping, `discover` returns `decimal(P, S)` with
`S` = the maximum stripped fractional digit count and `P` = the maximum
integer-part digit count plus `S`. -/
theorem discover_decimal_precision_scale (l : List PyVal)
    (h1 : ∀ f ∈ l, f.valid = true) (h2 : ∃ f ∈ l, f.isNull = false)
    (h3 : ∃ f ∈ l, ¬ f.fracLen = 0) :
    NumberDiscover.discover (l.map PyVal.render) =
      Except.ok ("decimal(" ++ Nat.repr (maxIntDigits l + maxFracLen l) ++ ", " ++
        Nat.repr (maxFracLen l) ++ ")") := by
  refine PyVal.discover_decimal_branch l h1 ?_ (PyVal.countNulls_lt h2)
  obtain ⟨f, hf, hfl⟩ := h3
  exact ⟨f, hf, hfl⟩

theorem discover_decimal_precision_scale_witness :
    NumberDiscover.discover ["-1", "0", "1", "1.01"] = Except.ok "decimal(3, 2)" ∧
    NumberDiscover.discover ["1.50"] = Except.ok "decimal(2, 1)" ∧
    NumberDiscover.discover ["1.5"] = Except.ok "decimal(2, 1)" :=
  ⟨discover_decimal_precision_scale
      [PyVal.num true [1] false [], PyVal.num false [0] false [],
        PyVal.num false [1] false [], PyVal.num false [1] true [0, 1]]
      (by decide) (by decide) (by decide),
    discover_decimal_precision_scale [PyVal.num false [1] true [5, 0]]
      (by decide) (by decide) (by decide),
    discover_decimal_precision_scale [PyVal.num false [1] true [5]]
      (by decide) (by decide) (by decide)⟩

/-- C4 counterexample: a value whose exponent marker is uppercase is not
expanded at all — the call raises instead of classifying — while the
same value with a lowercase marker is expanded and classified. -/
theorem sci_uppercase_marker_not_expanded :
    NumberDiscover.discover ["1E5"] = Except.error () ∧
    NumberDiscover.discover ["1e5"] = Except.ok "int" :=
  ⟨rfl, rfl⟩

/-- C4 (amended): for every well-formed numeral carrying a lowercase
exponent marker, the classifier's scientific-notation expansion to
plain fixed-point notation is exact — the rational value of the
expanded string equals the rational value of the original scientific
literal, so the subsequent digit counting is lossless — and the stated
example classifies accordingly.  (Values whose only exponent marker is
uppercase are not expanded; they raise instead, see the
counterexample.) -/
theorem sciExpand_exact (neg : Bool) (ds : List Nat) (dot : Bool) (fs : List Nat)
    (eneg : Bool) (es : List Nat) (hv : validSci ds dot fs es = true) :
    fixedValChars (NumberDiscover.sciExpand (renderSci neg ds dot fs eneg es)).data =
      sciVal neg ds fs eneg es ∧
    NumberDiscover.discover ["-1", "0", "1", "5e-4"] = Except.ok "decimal(5, 4)" := by
  refine ⟨?_, rfl⟩
  rw [sciExpand_renderSci neg ds dot fs eneg es hv]
  rw [show (String.mk (NumberDiscover.fixedRender neg (PyVal.valOfDigits (ds ++ fs))
    ((if eneg then -(PyVal.valOfDigits es : Int) else (PyVal.valOfDigits es : Int)) -
      (fs.length : Int)))).data =
    NumberDiscover.fixedRender neg (PyVal.valOfDigits (ds ++ fs))
      ((if eneg then -(PyVal.valOfDigits es : Int) else (PyVal.valOfDigits es : Int)) -
        (fs.length : Int)) from rfl]
  rw [fixedValChars_fixedRender]
  unfold sciVal
  rw [NumberDiscover.valOfDigits_append]
  generalize (if eneg then -(PyVal.valOfDigits es : Int) else (PyVal.valOfDigits es : Int)) = E
  have h10 : (10 : ℚ) ≠ 0 := by norm_num
  rw [zpow_sub₀ h10, zpow_natCast]
  have hpow : (0 : ℚ) < 10 ^ fs.length := by positivity
  push_cast
  field_simp

theorem sciExpand_exact_witness :
    fixedValChars (NumberDiscover.sciExpand "5e-4").data = 1 / 2000 ∧
    NumberDiscover.discover ["-1", "0", "1", "5e-4"] = Except.ok "decimal(5, 4)" := by
  have h := sciExpand_exact false [5] false [] true [4] (by decide)
  refine ⟨?_, h.2⟩
  have h1 : fixedValChars (NumberDiscover.sciExpand "5e-4").data =
      sciVal false [5] [] true [4] := h.1
  rw [h1]
  norm_num [sciVal, PyVal.valOfDigits]

/-- C5 counterexample: a crash-inducing value (uppercase exponent
marker) occurring before the non-numeric value makes the call raise,
so the column is not classified as `"string"`. -/
theorem discover_poison_counterexample :
    NumberDiscover.discover ["1E5", "*1"] = Except.error () ∧
    ¬ NumberDiscover.discover ["1E5", "*1"] = Except.ok "string" :=
  ⟨rfl, fun h => Except.noConfusion h⟩

/-- C5 (amended): a value sequence containing at least one non-empty
value failing the numeric-syntax parse classifies the whole column as
`"string"`, provided no value triggers the integer-parse exception
(every value is null, non-numeric, NaN, or has a parsable integer
token). -/
theorem discover_nonnumeric_poisons (values : List String)
    (h1 : ∃ v ∈ values, ¬ v = "" ∧ NumberDiscover.is_number v = false)
    (h2 : ∀ v ∈ values, procOk v = true) :
    NumberDiscover.discover values = Except.ok "string" := by
  unfold NumberDiscover.discover
  rw [NumberDiscover.go_poison values NumberDiscover.initState h1 h2]

theorem discover_nonnumeric_poisons_witness :
    NumberDiscover.discover ["-1", "0", "1", "*1"] = Except.ok "string" :=
  discover_nonnumeric_poisons ["-1", "0", "1", "*1"] (by decide) (by decide)

/-- C6: a column whose values are all the empty string — including the
zero-length column — classifies as `tinyint`. -/
theorem discover_all_null_tinyint (values : List String)
    (h : ∀ v ∈ values, v = "") :
    NumberDiscover.discover values = Except.ok "tinyint" := by
  unfold NumberDiscover.discover
  rw [NumberDiscover.go_all_null values NumberDiscover.initState h]
  simp [NumberDiscover.finalize, NumberDiscover.initState]

theorem discover_all_null_tinyint_witness :
    NumberDiscover.discover [] = Except.ok "tinyint" ∧
    NumberDiscover.discover ["", "", ""] = Except.ok "tinyint" :=
  ⟨discover_all_null_tinyint [] (by simp),
    discover_all_null_tinyint ["", "", ""] (by decide)⟩

/-- C7: every NaN literal is treated as a null — the scan of an all-NaN
column ends with the null counter equal to the column length and every
other accumulator field untouched — and consequently such a column
classifies as `tinyint`, not `string`. -/
theorem discover_nan_treated_as_null (values : List String)
    (h : ∀ v ∈ values, NumberDiscover.isNanLit v = true) :
    NumberDiscover.go NumberDiscover.initState values =
      Except.ok (Sum.inl { NumberDiscover.initState with
        number_of_nulls := values.length }) ∧
    NumberDiscover.discover values = Except.ok "tinyint" := by
  have hgo := NumberDiscover.go_all_nan values NumberDiscover.initState h
  constructor
  · simpa [NumberDiscover.initState] using hgo
  · unfold NumberDiscover.discover
    rw [hgo]
    simp [NumberDiscover.finalize, NumberDiscover.initState]

theorem discover_nan_treated_as_null_witness :
    NumberDiscover.go NumberDiscover.initState ["nan", "NaN", "-nan"] =
      Except.ok (Sum.inl ⟨0, 0, 3, 0, 0⟩) ∧
    NumberDiscover.discover ["nan", "NaN", "-nan"] = Except.ok "tinyint" :=
  discover_nan_treated_as_null ["nan", "NaN", "-nan"] (by decide)

/-- C8: a column of well-formed numerals whose fractional-part tokens
are all absent or empty (plain integers and bare-trailing-dot
numerals), with at least one non-null value, classifies by the
integer-range cascade — a trailing dot never produces a decimal. -/
theorem discover_trailing_dot_integer (l : List PyVal)
    (h1 : ∀ f ∈ l, f.valid = true ∧ f.fracTokenEmpty = true)
    (h2 : ∃ f ∈ l, f.isNull = false) :
    NumberDiscover.discover (l.map PyVal.render) =
      Except.ok (intRangeName (minPreVal l) (maxPreVal l)) := by
  refine PyVal.discover_int_branch l (fun f hf => (h1 f hf).1) ?_ (PyVal.countNulls_lt h2)
  intro f hf
  have hft := (h1 f hf).2
  cases f with
  | null => rfl
  | num neg ds dot fs =>
    have hfs : fs = [] := by
      simpa [PyVal.fracTokenEmpty, List.isEmpty_iff] using hft
    rw [hfs]
    rfl

theorem discover_trailing_dot_integer_witness :
    NumberDiscover.discover ["-1", "0", "1", "1."] = Except.ok "tinyint" :=
  discover_trailing_dot_integer
    [PyVal.num true [1] false [], PyVal.num false [0] false [],
      PyVal.num false [1] false [], PyVal.num false [1] true []]
    (by decide) (by decide)

/-- C9: the scan's accumulator is characterized exactly on structured
numerals: the integer-part token is canonicalized by an
arbitrary-precision signed parse before digit counting (sign excluded,
leading zeros dropped, empty token read as `"0"` with one digit), the
tracked max/min are the exact integer values with no word-width bound,
and the stated examples classify accordingly. -/
theorem discover_integer_token_canonical (l : List PyVal)
    (h : ∀ f ∈ l, f.valid = true) :
    NumberDiscover.go NumberDiscover.initState (l.map PyVal.render) =
      Except.ok (Sum.inl ⟨maxIntDigits l, maxFracLen l, countNulls l,
        maxPreVal l, minPreVal l⟩) ∧
    NumberDiscover.discover ["007.5"] = Except.ok "decimal(2, 1)" ∧
    NumberDiscover.discover ["-1", "0", "1", ".01"] = Except.ok "decimal(3, 2)" :=
  ⟨PyVal.go_characterize l h, rfl, rfl⟩

theorem discover_integer_token_canonical_witness :
    NumberDiscover.go NumberDiscover.initState ["18446744073709551617"] =
      Except.ok (Sum.inl ⟨20, 0, 0, (18446744073709551617 : Int), 0⟩) :=
  (discover_integer_token_canonical
    [PyVal.num false [1, 8, 4, 4, 6, 7, 4, 4, 0, 7, 3, 7, 0, 9, 5, 5, 1, 6, 1, 7] false []]
    (by decide)).1

/-- C10: the DDL assembly fails on an empty column mapping and, for a
nonempty mapping, produces the `CREATE TABLE` statement with one column
definition per entry, in mapping order, comma-separated. -/
theorem to_sql_empty_error_and_order (name : String) (t : String × String)
    (ts : List (String × String)) :
    SchemaDiscovery.to_sql name [] = Except.error () ∧
    SchemaDiscovery.to_sql name (t :: ts) =
      Except.ok ("CREATE TABLE \"" ++ name ++ "\" (" ++
        SchemaDiscovery.commaJoin ((t :: ts).map SchemaDiscovery.colDef) ++ "\n);") :=
  ⟨rfl, SchemaDiscovery.to_sql_nonempty name t ts⟩

theorem to_sql_empty_error_and_order_witness :
    SchemaDiscovery.to_sql "test" [] = Except.error () ∧
    SchemaDiscovery.to_sql "test" [("a", "int"), ("b", "string")] =
      Except.ok "CREATE TABLE \"test\" (\n\t\"a\" int,\n\t\"b\" string\n);" :=
  to_sql_empty_error_and_order "test" ("a", "int") [("b", "string")]

section Examples

example : NumberDiscover.discover ["0", "1", "2", "127", "-127"] =
    Except.ok "tinyint" := by rfl

example : NumberDiscover.discover ["-1", "0", "1", "-32767", "32767"] =
    Except.ok "smallint" := by rfl

example : NumberDiscover.discover ["-1", "0", "1", "*1"] =
    Except.ok "string" := by rfl

example : NumberDiscover.discover ["-1", "0", "1", "5e-4"] =
    Except.ok "decimal(5, 4)" := by rfl

example : NumberDiscover.discover ["-1", "0", "1", ".01"] =
    Except.ok "decimal(3, 2)" := by rfl

example : NumberDiscover.discover ["-1", "0", "1", "1."] =
    Except.ok "tinyint" := by rfl

example : NumberDiscover.discover ["-1", "0", "1", "1.01"] =
    Except.ok "decimal(3, 2)" := by rfl

example : NumberDiscover.discover [] = Except.ok "tinyint" := by rfl

example : NumberDiscover.discover ["", ""] = Except.ok "tinyint" := by rfl

example : NumberDiscover.discover ["nan", "NaN", "-nan"] = Except.ok "tinyint" := by rfl

example : NumberDiscover.discover ["1E5"] = Except.error () := by rfl

example : NumberDiscover.discover ["inf"] = Except.error () := by rfl

example : NumberDiscover.discover ["1e5"] = Except.ok "int" := by rfl

example : NumberDiscover.discover ["007.5"] = Except.ok "decimal(2, 1)" := by rfl

example : NumberDiscover.discover ["-128", "127"] = Except.ok "smallint" := by rfl

example : NumberDiscover.discover ["1.50", "1.5"] = Except.ok "decimal(2, 1)" := by rfl

example : NumberDiscover.discover ["-2147483647", "2147483647"] = Except.ok "int" := by rfl

example : NumberDiscover.discover ["2147483648"] = Except.ok "bigint" := by rfl

example : NumberDiscover.discover ["18446744073709551617"] = Except.ok "bigint" := by rfl

example : SchemaDiscovery.to_sql "test" [] = Except.error () := by rfl

example : SchemaDiscovery.to_sql "test" [("a", "int"), ("b", "string")] =
    Except.ok "CREATE TABLE \"test\" (\n\t\"a\" int,\n\t\"b\" string\n);" := by rfl

end Examples
